import Mathlib

/-!
Verification development for the `database-schema-spec` repository:
a shallow embedding, in Lean 4, of the JSON `$ref` resolver
(`resolution/resolver.py`), the conditional `oneOf` merger
(`resolution/conditional_merger.py`) and the variant extractor
(`resolution/variant_extractor.py`), together with theorems about the
behaviour those modules are specified to have.

Modelling conventions:
- JSON documents are a closed sum (`JSON`); Python `dict`s become ordered
  association lists (insertion order preserved, as in CPython), and
  `dict.__setitem__` becomes `setField` (update in place, else append).
- The file system is a finite map from base-relative paths to parsed
  documents (`FS`).  File loads never raise decode errors in the model
  because the store holds already-parsed values.
- Python exceptions become the inductive `Err`; `ReferenceResolutionError`
  wraps its cause structurally, as the Python class stores it.
- The recursive resolver is fueled: fuel is consumed once per recursion
  step, and `Err.outOfFuel` is the model artifact standing for a run
  deeper than the supplied fuel.  It is deliberately never wrapped by the
  except-blocks of the embedded code, so that theorems can quantify over
  sufficiently large fuel; `resolve_mono` shows results other than
  `outOfFuel` are stable under adding fuel.
- String scanning helpers are re-implemented over `List Char` so that
  every definition reduces inside the kernel; each mirrors the exact
  Python string operation named in its doc comment.
-/

/-- JSON values, as produced by `json.load`: mappings with string keys,
sequences, strings, numbers, booleans and null.  Numbers are modelled as
integers; no claim under verification depends on non-integral numbers. -/
inductive JSON where
  | str (s : String)
  | num (n : Int)
  | bool (b : Bool)
  | null
  | arr (items : List JSON)
  | obj (fields : List (String × JSON))

/-- The `$ref` field name (`config.json_schema_fields.ref_field`,
`core/constants.py` REF_FIELD, default value). -/
def REF : String := "$ref"

/-- The `oneOf` field name (`config.json_schema_fields.oneof_field`,
`core/constants.py` ONEOF_FIELD, default value). -/
def ONEOF : String := "oneOf"

/-- Python `key in d` on a dict modelled as an association list. -/
def hasField (l : List (String × JSON)) (k : String) : Bool :=
  l.any (fun p => p.1 == k)

/-- Python `d[key]` / `d.get(key)`: the value at the first entry with the
given key (association lists built by the embedded code never hold
duplicate keys, as Python dicts cannot). -/
def getField (l : List (String × JSON)) (k : String) : Option JSON :=
  (l.find? (fun p => p.1 == k)).map (fun p => p.2)

/-- Python `d[key] = v` on a dict: replace the value at an existing key in
place (CPython keeps its position), otherwise append the new entry. -/
def setField (l : List (String × JSON)) (k : String) (v : JSON) : List (String × JSON) :=
  if l.any (fun p => p.1 == k) then
    l.map (fun p => if p.1 == k then (k, v) else p)
  else
    l ++ [(k, v)]

/-- Python `del d[key]` (the key is present at every embedded call site;
deleting an absent key is a no-op here). -/
def delField (l : List (String × JSON)) (k : String) : List (String × JSON) :=
  l.filter (fun p => p.1 != k)

/-- Python `{**a, **b}`: start from `a` and insert every entry of `b` in
order, later entries overriding. -/
def mergeShallow (a b : List (String × JSON)) : List (String × JSON) :=
  b.foldl (fun acc p => setField acc p.1 p.2) a

/-- Errors: the repository's exception taxonomy (`core/exceptions.py`)
plus the bare Python exceptions the embedded code raises or stores as
causes, plus the fuel artifact. -/
inductive Err where
  | valueErr (msg : String)
  | keyErr (msg : String)
  | typeErr (msg : String)
  | fileNotFoundErr (msg : String)
  | pydanticValidation (msg : String)
  | resolution (refPath : String) (cause : Err)
  | circular (chain : List String)
  | validation (errors : List String)
  | variantExtraction (msg : String)
  | outOfFuel
deriving Repr, DecidableEq

/-- Python `str(e)` for the exceptions above, as the embedded f-strings
interpolate them.  `KeyError`'s `str` shows the `repr` of its argument,
hence the added quotes.  `pydanticValidation` renders just the stored
message (an approximation of pydantic's multi-line rendering; no claim
inspects that text). -/
def errMsg : Err → String
  | .valueErr m => m
  | .keyErr m => "'" ++ m ++ "'"
  | .typeErr m => m
  | .fileNotFoundErr m => m
  | .pydanticValidation m => m
  | .resolution refPath cause =>
      "Failed to resolve reference '" ++ refPath ++ "': " ++ errMsg cause
  | .circular chain =>
      "Circular reference detected: " ++ String.intercalate (" -> ") chain
  | .validation errors =>
      "Schema validation failed: " ++ String.intercalate ("; ") errors
  | .variantExtraction m => m
  | .outOfFuel => "out of fuel"

/-- The file system: a finite map from base-relative path to the parsed
content of the JSON file stored there. -/
abbrev FS : Type := List (String × JSON)

/-- Look a path up in the file store (a successful `json.load` of an
existing file; `none` is a missing file). -/
def loadFS (fs : FS) (path : String) : Option JSON :=
  ((fs : List (String × JSON)).find? (fun p => p.1 == path)).map (fun p => p.2)

/-- Split a `$ref` value at the first `#` into optional file part and
optional JSON pointer (`JSONRefResolver._parse_ref`, which uses
`ref_path.split("#", 1)` guarded by `"#" in ref_path`). -/
def parseRef (refPath : String) : Option String × Option String :=
  let cs := refPath.toList
  if cs.contains '#' then
    let pre := cs.takeWhile (fun c => c != '#')
    let post := cs.drop (pre.length + 1)
    (if pre.isEmpty then none else some (String.mk pre),
     if post.isEmpty then none else some (String.mk post))
  else
    (some refPath, none)

/-- Replace every non-overlapping occurrence of the two-character pattern
`c1 c2` by `repl`, scanning left to right: `str.replace` for a pattern of
length two, as used by the pointer-segment unescaping. -/
def replace2 (c1 c2 : Char) (repl : List Char) : List Char → List Char
  | [] => []
  | [c] => [c]
  | a :: b :: rest =>
    if a = c1 ∧ b = c2 then repl ++ replace2 c1 c2 repl rest
    else a :: replace2 c1 c2 repl (b :: rest)

/-- Decode one JSON-pointer segment exactly as the source does: two
sequential global substitutions, `part.replace("~1", "/")` first, then
`.replace("~0", "~")`. -/
def unescapeSegment (s : String) : String :=
  String.mk (replace2 '~' '0' ['~'] (replace2 '~' '1' ['/'] s.toList))

/-- Python `pointer.lstrip("/")`: drop all leading slashes. -/
def lstripSlash (s : String) : String :=
  String.mk (s.toList.dropWhile (fun c => c = '/'))

/-- Python `s.split(sep)` for a one-character separator (used with
`"/"`). -/
def splitCharAux (c : Char) : List Char → List Char → List String
  | [], acc => [String.mk acc.reverse]
  | x :: rest, acc =>
    if x = c then String.mk acc.reverse :: splitCharAux c rest []
    else splitCharAux c rest (x :: acc)

/-- Python `s.split(c)` (single-character separator). -/
def splitChar (c : Char) (s : String) : List String :=
  splitCharAux c s.toList []

/-- Directory part of a base-relative path: `Path(p).parent`, with the
base directory itself rendered as the empty string.  Purely textual, no
`..` normalization (no claim under verification uses `..` segments). -/
def dirOf (p : String) : String :=
  String.intercalate ("/") ((splitChar '/' p).dropLast)

/-- Join a directory part and a relative path (`current_dir / ref_path`,
re-expressed relative to the base directory). -/
def joinPath (d f : String) : String :=
  if d = "" then f else d ++ "/" ++ f

/-- Digits of a decimal numeral to its value, `none` when the character
list is empty or holds a non-digit. -/
def digitsToNat : List Char → Option Nat
  | [] => none
  | cs =>
    if cs.all (fun c => c.isDigit) then
      some (cs.foldl (fun n c => n * 10 + (c.toNat - 48)) 0)
    else none

/-- Python `int(part)` restricted to an optional sign followed by digits
(the embedded code only ever applies it to pointer segments; `int`'s
tolerance of surrounding whitespace and underscore separators is not
modelled). -/
def pyToInt (s : String) : Option Int :=
  match s.toList with
  | '-' :: rest => (digitsToNat rest).map (fun n => -(n : Int))
  | '+' :: rest => (digitsToNat rest).map (fun n => (n : Int))
  | cs => (digitsToNat cs).map (fun n => (n : Int))

/-- Python list indexing `items[i]`, including negative indices. -/
def pyIndex (items : List JSON) (i : Int) : Option JSON :=
  if 0 ≤ i then items.get? i.toNat
  else
    let j : Int := (items.length : Int) + i
    if 0 ≤ j then items.get? j.toNat else none

/-- Loop body of `JSONRefResolver._resolve_json_pointer`: walk the decoded
segments into mappings by key and into sequences by integer index,
raising `ReferenceResolutionError` with the cause the source constructs.
`pointer` is the undecoded pointer used in the error messages. -/
def resolvePointerSteps (originalRef pointer : String) : List String → JSON → Except Err JSON
  | [], current => .ok current
  | part :: rest, current =>
    let seg := unescapeSegment part
    match current with
    | .obj fields =>
      match getField fields seg with
      | some v => resolvePointerSteps originalRef pointer rest v
      | none =>
        .error (.resolution originalRef (.keyErr
          ("JSON pointer '" ++ pointer ++ "' not found: key '" ++ seg ++ "' does not exist")))
    | .arr items =>
      match pyToInt seg with
      | some i =>
        match pyIndex items i with
        | some v => resolvePointerSteps originalRef pointer rest v
        | none =>
          .error (.resolution originalRef (.keyErr
            ("JSON pointer '" ++ pointer ++ "' not found: invalid array index '" ++ seg ++ "'")))
      | none =>
        .error (.resolution originalRef (.keyErr
          ("JSON pointer '" ++ pointer ++ "' not found: invalid array index '" ++ seg ++ "'")))
    | _ =>
      .error (.resolution originalRef (.typeErr
        ("JSON pointer '" ++ pointer ++ "' cannot traverse non-container type at '" ++ seg ++ "'")))

/-- Resolve a JSON pointer within a document
(`JSONRefResolver._resolve_json_pointer`): empty pointer or `/` yields the
whole document unchecked; otherwise strip leading slashes, split on `/`,
traverse the decoded segments, and require the final value to be a
mapping. -/
def resolveJsonPointer (document : JSON) (pointer originalRef : String) : Except Err JSON :=
  if pointer = "" ∨ pointer = "/" then .ok document
  else
    match resolvePointerSteps originalRef pointer (splitChar '/' (lstripSlash pointer)) document with
    | .error e => .error e
    | .ok current =>
      match current with
      | .obj f => .ok (.obj f)
      | _ =>
        .error (.resolution originalRef (.typeErr
          ("JSON pointer '" ++ pointer ++ "' resolved to non-object type")))

/-- The path of the file a `$ref` names, relative to the base directory
(`JSONRefResolver._get_new_current_file` and the path arithmetic of
`load_referenced_file`): relative to the referencing file's directory
when a current file is known, else relative to the base directory. -/
def refTargetPath (cur : Option String) (refPath : String) : String :=
  match cur with
  | some cf => joinPath (dirOf cf) refPath
  | none => refPath

/-- `JSONRefResolver.load_referenced_file`: load the target of an external
reference, wrapping a missing file into `ReferenceResolutionError` (the
model's store holds parsed documents, so the JSON-decode failure branch
of the source cannot arise). -/
def loadReferencedFile (fs : FS) (refPath : String) (cur : Option String) : Except Err JSON :=
  match loadFS fs (refTargetPath cur refPath) with
  | some content => .ok content
  | none =>
    .error (.resolution refPath (.fileNotFoundErr
      ("Referenced file not found: " ++ refTargetPath cur refPath)))

/-- Python `dict(x)`: a shallow copy for a mapping, a fresh dict for a
sequence of two-element `[key, value]` sequences (later entries override
earlier ones).  Other shapes raise; `dict` over an iterable of dicts or
of two-character strings, and non-string keys, are approximated by the
same `TypeError` (no claim exercises them, and under the hypotheses of
the theorems below those shapes cannot reach this function). -/
def pyDictOf : JSON → Except Err (List (String × JSON))
  | .obj fields => .ok fields
  | .arr items =>
    let rec fromPairs : List JSON → List (String × JSON) → Except Err (List (String × JSON))
      | [], acc => .ok acc
      | .arr [.str k, v] :: rest, acc => fromPairs rest (setField acc k v)
      | _ :: _, _ => .error (.typeErr "cannot convert dictionary update sequence")
    fromPairs items []
  | _ => .error (.typeErr "argument is not iterable")

/-- `JSONRefResolver._merge_schema_with_ref`: start from a copy of the
resolved referent, then lay every non-`$ref` key of the referencing
mapping over it; when both sides hold mappings for a key they are merged
shallowly with the sibling's entries winning, otherwise the sibling value
overwrites.  The sibling values are taken verbatim from the referencing
mapping. -/
def mergeOverlay : List (String × JSON) → List (String × JSON) → List (String × JSON)
  | acc, [] => acc
  | acc, (k, v) :: rest =>
    if k = REF then mergeOverlay acc rest
    else
      match getField acc k, v with
      | some (.obj bf), .obj vf => mergeOverlay (setField acc k (.obj (mergeShallow bf vf))) rest
      | _, _ => mergeOverlay (setField acc k v) rest

/-- `JSONRefResolver._merge_schema_with_ref`, entry point: `dict()` the
resolved content, then overlay the referencing mapping's other keys. -/
def mergeSchemaWithRef (schemaFields : List (String × JSON)) (resolvedContent : JSON) :
    Except Err JSON :=
  match pyDictOf resolvedContent with
  | .error e => .error e
  | .ok base => .ok (.obj (mergeOverlay base schemaFields))

/-- Element-wise resolution of a sequence value
(`JSONRefResolver._resolve_nested`, list branch): elements that are
mappings are resolved with the supplied resolver, all other elements
(including nested sequences) pass through unchanged. -/
def resolveItemsWith (r : JSON → Except Err JSON) : List JSON → Except Err (List JSON)
  | [] => .ok []
  | .obj f :: rest =>
    match r (.obj f) with
    | .error e => .error e
    | .ok item2 =>
      match resolveItemsWith r rest with
      | .error e => .error e
      | .ok rest2 => .ok (item2 :: rest2)
  | item :: rest =>
    match resolveItemsWith r rest with
    | .error e => .error e
    | .ok rest2 => .ok (item :: rest2)

/-- Key-wise resolution of a mapping without `$ref`
(`JSONRefResolver._resolve_nested`): mapping values are resolved,
sequence values element-wise, scalars pass through; a new mapping with
the same keys in the same order is returned. -/
def resolveFieldsWith (r : JSON → Except Err JSON) :
    List (String × JSON) → Except Err (List (String × JSON))
  | [] => .ok []
  | (k, .obj f) :: rest =>
    match r (.obj f) with
    | .error e => .error e
    | .ok v2 =>
      match resolveFieldsWith r rest with
      | .error e => .error e
      | .ok rest2 => .ok ((k, v2) :: rest2)
  | (k, .arr items) :: rest =>
    match resolveItemsWith r items with
    | .error e => .error e
    | .ok items2 =>
      match resolveFieldsWith r rest with
      | .error e => .error e
      | .ok rest2 => .ok ((k, .arr items2) :: rest2)
  | (k, v) :: rest =>
    match resolveFieldsWith r rest with
    | .error e => .error e
    | .ok rest2 => .ok ((k, v) :: rest2)

/-- The resolution key of a `$ref` for cycle detection
(`JSONRefResolver._resolve_ref`, step computing `resolution_key`): the
raw `$ref` string when a file part is present, else
`(current_file or "") + ":" + ref`. -/
def resolutionKey (cur : Option String) (refPath : String) : String :=
  match (parseRef refPath).1 with
  | some _ => refPath
  | none => (cur.getD "") ++ ":" ++ refPath

/-- `JSONRefResolver._resolve_ref` with the recursive call abstracted as
`r` (receiving the grown stack, the new current-file context and the
extracted sub-document): parse the reference, detect cycles through the
resolution stack, load and extract the referent (external branch with
optional pointer, or local pointer against the current file root loaded
through the cache), resolve it recursively and merge the referencing
mapping's siblings over the result. -/
def resolveRefWith (r : List String → Option String → JSON → Except Err JSON)
    (fs : FS) (stack : List String) (cur : Option String)
    (fields : List (String × JSON)) (refPath : String) : Except Err JSON :=
  if stack.contains (resolutionKey cur refPath) then
    .error (.circular (stack ++ [resolutionKey cur refPath]))
  else
    match (parseRef refPath).1 with
    | some filePart =>
      match loadReferencedFile fs filePart cur with
      | .error e => .error e
      | .ok content0 =>
        match
          (match (parseRef refPath).2 with
           | some ptr => resolveJsonPointer content0 ptr refPath
           | none => .ok content0) with
        | .error e => .error e
        | .ok content =>
          match r (stack ++ [resolutionKey cur refPath]) (some (refTargetPath cur filePart)) content with
          | .error e => .error e
          | .ok resolved => mergeSchemaWithRef fields resolved
    | none =>
      match (parseRef refPath).2 with
      | none =>
        .error (.resolution refPath (.valueErr
          "Invalid local reference: missing JSON pointer"))
      | some ptr =>
        match cur with
        | none =>
          .error (.resolution refPath (.valueErr
            "Cannot resolve local reference without current file context"))
        | some cf =>
          match loadFS fs cf with
          | none => .error (.fileNotFoundErr ("File not found: " ++ cf))
          | some root =>
            match resolveJsonPointer root ptr refPath with
            | .error e => .error e
            | .ok content =>
              match r (stack ++ [resolutionKey cur refPath]) (some cf) content with
              | .error e => .error e
              | .ok resolved => mergeSchemaWithRef fields resolved

/-- `JSONRefResolver.resolve_references` together with `_resolve_ref`
(the branch for a mapping carrying `$ref`): the core recursive
resolution algorithm.  `stack` is the resolution stack (passed
functionally, which gives the push-then-always-pop discipline of the
source's try/finally for free); `cur` is the current-file context.  Fuel
is consumed once per recursion step and only bounds depth. -/
def resolveReferences : Nat → FS → List String → Option String → JSON → Except Err JSON
  | 0, _, _, _, _ => .error .outOfFuel
  | fuel + 1, fs, stack, cur, schema =>
    match schema with
    | .obj fields =>
      match getField fields REF with
      | some (.str refPath) =>
        resolveRefWith (fun st c v => resolveReferences fuel fs st c v) fs stack cur fields refPath
      | some _ =>
        .error (.typeErr "argument of type 'int' is not iterable")
      | none =>
        (resolveFieldsWith (fun v => resolveReferences fuel fs stack cur v) fields).map JSON.obj
    | _ => .ok schema
termination_by structural fuel => fuel

/-- `JSONRefResolver.resolve_file`: load the root document (raising
Python's bare `FileNotFoundError` when missing), resolve it with the file
path as current-file context, re-raise `CircularReferenceError` directly
and wrap every other exception into `ReferenceResolutionError`.  The fuel
artifact is passed through unwrapped. -/
def resolveFile (fuel : Nat) (fs : FS) (filePath : String) : Except Err JSON :=
  let body : Except Err JSON :=
    match loadFS fs filePath with
    | none => .error (.fileNotFoundErr ("File not found: " ++ filePath))
    | some schema => resolveReferences fuel fs [] (some filePath) schema
  match body with
  | .ok v => .ok v
  | .error (.circular chain) => .error (.circular chain)
  | .error .outOfFuel => .error .outOfFuel
  | .error e => .error (.resolution filePath e)

/-- The database variant value object (`core/schemas.py`
`DatabaseVariantSpec`): engine name, version, optional spec path.  The
construction-time validation lives in `mkDatabaseVariantSpec`. -/
structure DatabaseVariantSpec where
  engine : String
  version : String
  engineSpecPath : Option String
deriving Repr, DecidableEq

/-- The engine-name character rule
(`DatabaseVariantSpec.validate_engine`): after removing underscores,
hyphens and spaces, `str.isalnum()` must hold — which also demands the
stripped string be non-empty.  `Char.isAlphanum` restricts to ASCII
alphanumerics; the Unicode alphanumerics Python would also accept are
outside the model (no claim uses them). -/
def validEngineChars (s : String) : Bool :=
  let stripped := s.toList.filter (fun c => c != '_' && c != '-' && c != ' ')
  !stripped.isEmpty && stripped.all (fun c => c.isAlphanum)

/-- The version character rule (`DatabaseVariantSpec.validate_version`):
same shape with dots, hyphens and underscores removed. -/
def validVersionChars (s : String) : Bool :=
  let stripped := s.toList.filter (fun c => c != '.' && c != '-' && c != '_')
  !stripped.isEmpty && stripped.all (fun c => c.isAlphanum)

/-- Constructing a `DatabaseVariantSpec`: pydantic's `min_length=1` on
both fields plus the two field validators; failure is a pydantic
`ValidationError` (messages abbreviated; no claim inspects them). -/
def mkDatabaseVariantSpec (engine version : String) : Except Err DatabaseVariantSpec :=
  if engine.isEmpty then
    .error (.pydanticValidation "engine: String should have at least 1 character")
  else if !validEngineChars engine then
    .error (.pydanticValidation
      "engine: Engine name must contain only alphanumeric characters, hyphens, underscores, and spaces")
  else if version.isEmpty then
    .error (.pydanticValidation "version: String should have at least 1 character")
  else if !validVersionChars version then
    .error (.pydanticValidation
      "version: Version must contain only alphanumeric characters, dots, hyphens, and underscores")
  else
    .ok { engine := engine, version := version, engineSpecPath := none }

/-- `ConditionalMerger._engine_matches`: absent key matches; a mapping
with a `const` entry matches exactly a string const equal to the engine;
a bare string matches on equality; every other shape (a mapping without
`const`, or a value that is neither mapping nor string) falls through to
`return True`. -/
def engineMatches (properties : List (String × JSON)) (engine : String) : Bool :=
  match getField properties "engine" with
  | none => true
  | some c =>
    match c with
    | .obj cf =>
      match getField cf "const" with
      | some constVal =>
        match constVal with
        | .str s => s == engine
        | _ => false
      | none => true
    | .str s => s == engine
    | _ => true

/-- `ConditionalMerger._version_matches`: same shape as the engine
check. -/
def versionMatches (properties : List (String × JSON)) (version : String) : Bool :=
  match getField properties "version" with
  | none => true
  | some c =>
    match c with
    | .obj cf =>
      match getField cf "const" with
      | some constVal =>
        match constVal with
        | .str s => s == version
        | _ => false
      | none => true
    | .str s => s == version
    | _ => true

/-- `ConditionalMerger._check_properties_match`. -/
def checkPropertiesMatch (properties : List (String × JSON)) (variant : DatabaseVariantSpec) : Bool :=
  engineMatches properties variant.engine && versionMatches properties variant.version

/-- `ConditionalMerger._check_if_condition_match`: the nested
(`properties.database.properties`) and direct (`properties.engine` /
`properties.version`) sub-shapes of an `if` condition; anything else
falls through to `False`. -/
def checkIfConditionMatch (ifCondition : List (String × JSON)) (variant : DatabaseVariantSpec) : Bool :=
  match getField ifCondition "properties" with
  | some (.obj properties) =>
    if hasField properties "database" then
      match getField properties "database" with
      | some (.obj dbProps) =>
        match getField dbProps "properties" with
        | some (.obj dbProperties) => checkPropertiesMatch dbProperties variant
        | _ => false
      | _ => false
    else if hasField properties "engine" || hasField properties "version" then
      checkPropertiesMatch properties variant
    else false
  | _ => false

/-- `ConditionalMerger._matches_variant_condition`: an if/then branch is
matched through its `if` condition, a direct-properties branch through
its `properties`; anything else (including non-mapping branches, which
`apply_conditional_logic` skips) never matches. -/
def matchesVariantCondition (condition : JSON) (variant : DatabaseVariantSpec) : Bool :=
  match condition with
  | .obj cf =>
    match getField cf "if" with
    | some (.obj ifCond) => checkIfConditionMatch ifCond variant
    | _ =>
      match getField cf "properties" with
      | some (.obj props) => checkPropertiesMatch props variant
      | _ => false
  | _ => false

/-- `ConditionalMerger._extract_variant_from_properties`: read the
`engine`/`version` string consts; Python's truthiness test on the
f-string guard makes empty strings fall back to `None`. -/
def extractVariantFromProperties (properties : List (String × JSON)) : Option String :=
  let engine : Option String :=
    match getField properties "engine" with
    | some (.obj ef) =>
      match getField ef "const" with
      | some (.str s) => some s
      | _ => none
    | _ => none
  let version : Option String :=
    match getField properties "version" with
    | some (.obj vf) =>
      match getField vf "const" with
      | some (.str s) => some s
      | _ => none
    | _ => none
  match engine, version with
  | some e, some v => if !e.isEmpty && !v.isEmpty then some (e ++ " " ++ v) else none
  | _, _ => none

/-- `ConditionalMerger._extract_variant_from_if_then`. -/
def extractVariantFromIfThen (cf : List (String × JSON)) : Option String :=
  match getField cf "if" with
  | some (.obj ifCond) =>
    match getField ifCond "properties" with
    | some (.obj ifProps) =>
      match getField ifProps "database" with
      | some (.obj dbProps) =>
        match getField dbProps "properties" with
        | some (.obj dbProperties) => extractVariantFromProperties dbProperties
        | _ => none
      | _ => none
    | _ => none
  | _ => none

/-- `ConditionalMerger._extract_variant_from_condition`: try the if/then
shape, then the direct-properties shape. -/
def extractVariantFromCondition (condition : JSON) : Option String :=
  match condition with
  | .obj cf =>
    match extractVariantFromIfThen cf with
    | some v => some v
    | none =>
      match getField cf "properties" with
      | some (.obj props) => extractVariantFromProperties props
      | _ => none
  | _ => none

/-- `ConditionalMerger._get_supported_variants`: walk the `oneOf` list of
the schema and collect every extractable "Engine Version" string. -/
def getSupportedVariants (schema : JSON) : List String :=
  match schema with
  | .obj f =>
    match getField f ONEOF with
    | some (.arr conditions) => conditions.filterMap extractVariantFromCondition
    | _ => []
  | _ => []

/-- One pass of `ConditionalMerger._deep_merge_schemas` with the
recursive merging of two mapping values delegated to `rec` (the fueled
tie is made in `deepMerge`). -/
def deepMergeWith
    (rec : List (String × JSON) → List (String × JSON) → Except Err (List (String × JSON))) :
    List (String × JSON) → List (String × JSON) → Except Err (List (String × JSON))
  | base, [] => .ok base
  | base, (k, v) :: rest =>
    match getField base k, v with
    | some (.obj bf), .obj vf =>
      match rec bf vf with
      | .error e => .error e
      | .ok merged => deepMergeWith rec (setField base k (.obj merged)) rest
    | _, _ => deepMergeWith rec (setField base k v) rest

/-- `ConditionalMerger._deep_merge_schemas`: recursive two-mapping merge,
overlay wins on non-mapping conflicts, mappings merge recursively,
sequences are replaced wholesale.  The Python recursion always
terminates on (finite) parsed documents; fuel is the model's bound and
only `outOfFuel` distinguishes a too-small bound. -/
def deepMerge : Nat → List (String × JSON) → List (String × JSON) → Except Err (List (String × JSON))
  | 0, _, _ => .error .outOfFuel
  | fuel + 1, base, overlay => deepMergeWith (fun a b => deepMerge fuel a b) base overlay
termination_by structural fuel => fuel

/-- `ConditionalMerger._merge_condition_schema`: an if/then branch merges
its `then` clause (resolving a `$ref` in it first, with failures of that
resolution wrapped into `ValidationError`); a direct-properties branch
deep-merges its `properties` into the base document's `properties`,
creating that key first when absent. -/
def mergeConditionSchema (fuel : Nat) (fs : FS) (resultSchema : List (String × JSON))
    (condition : List (String × JSON)) : Except Err (List (String × JSON)) :=
  if hasField condition "then" then
    match getField condition "then" with
    | some (.obj thenClause) =>
      if hasField thenClause REF then
        match resolveReferences fuel fs [] none (.obj thenClause) with
        | .ok (.obj resolvedThen) => deepMerge fuel resultSchema resolvedThen
        | .ok _ =>
          .error (.validation
            ["Failed to resolve then clause reference: resolved content is not a mapping"])
        | .error .outOfFuel => .error .outOfFuel
        | .error e =>
          .error (.validation ["Failed to resolve then clause reference: " ++ errMsg e])
      else deepMerge fuel resultSchema thenClause
    | _ => .ok resultSchema
  else if hasField condition "properties" then
    let resultSchema2 :=
      if hasField resultSchema "properties" then resultSchema
      else setField resultSchema "properties" (.obj [])
    match getField condition "properties", getField resultSchema2 "properties" with
    | some (.obj condProps), some (.obj resProps) =>
      match deepMerge fuel resProps condProps with
      | .error e => .error e
      | .ok merged => .ok (setField resultSchema2 "properties" (.obj merged))
    | _, _ => .ok resultSchema2
  else .ok resultSchema

/-- `ConditionalMerger.apply_conditional_logic`: no `oneOf` key, a
non-sequence value, or (by Python truthiness) an empty sequence return
the copied document unchanged; otherwise the branches are matched
against the variant, zero matches and multiple matches raise
`ValidationError` with the source's messages, and the unique match is
merged in and the `oneOf` key deleted.  The document must be a mapping
(the claims under verification quantify over mapping documents; `dict()`
of a non-mapping is the model's `typeErr`). -/
def applyConditionalLogic (fuel : Nat) (fs : FS) (baseSchema : JSON)
    (variant : DatabaseVariantSpec) : Except Err JSON :=
  match baseSchema with
  | .obj fields =>
    match getField fields ONEOF with
    | some (.arr oneofData) =>
      if oneofData.isEmpty then .ok (.obj fields)
      else
        let matching := oneofData.filter (fun c => matchesVariantCondition c variant)
        match matching with
        | [] =>
          .error (.validation
            ["No matching oneOf condition found for " ++ variant.engine ++ " " ++
              variant.version ++ ". Supported variants: " ++
              String.intercalate (", ") (getSupportedVariants baseSchema)])
        | [condition] =>
          match condition with
          | .obj cf =>
            match mergeConditionSchema fuel fs fields cf with
            | .error e => .error e
            | .ok merged => .ok (.obj (delField merged ONEOF))
          | _ => .error (.typeErr "condition is not a mapping")
        | _ =>
          .error (.validation
            ["Multiple matching conditions found for " ++ variant.engine ++ " " ++
              variant.version ++ ". oneOf conditions should be mutually exclusive."])
    | _ => .ok (.obj fields)
  | _ => .error (.typeErr "base schema is not a mapping")

/-- The engine/version string consts a registry `oneOf` branch carries
(the per-branch extraction loop of `VariantExtractor.parse_oneof_block`,
before the truthiness guard). -/
def branchConsts (item : JSON) : Option (Option String × Option String) :=
  match item with
  | .obj f =>
    match getField f "properties" with
    | some (.obj properties) =>
      let engine : Option String :=
        match getField properties "engine" with
        | some (.obj ef) =>
          match getField ef "const" with
          | some (.str s) => some s
          | _ => none
        | _ => none
      let version : Option String :=
        match getField properties "version" with
        | some (.obj vf) =>
          match getField vf "const" with
          | some (.str s) => some s
          | _ => none
        | _ => none
      some (engine, version)
    | _ => none
  | _ => none

/-- `VariantExtractor.parse_oneof_block`: walk the `oneOf` items, skip
branches that are not mappings, lack a `properties` mapping, or lack
engine/version string consts; Python's `if engine and version` also
skips empty-string consts.  A pydantic validation failure while
constructing a spec becomes a `VariantExtractionError` wrapping the
cause. -/
def parseOneofBlock : List JSON → Except Err (List DatabaseVariantSpec)
  | [] => .ok []
  | item :: rest =>
    let pair : Option (String × String) :=
      match branchConsts item with
      | some (some e, some v) => if !e.isEmpty && !v.isEmpty then some (e, v) else none
      | _ => none
    match pair with
    | none => parseOneofBlock rest
    | some (e, v) =>
      match mkDatabaseVariantSpec e v with
      | .error err =>
        .error (.variantExtraction
          ("Invalid variant data - engine: " ++ e ++ ", version: " ++ v ++ ": " ++ errMsg err))
      | .ok spec =>
        match parseOneofBlock rest with
        | .error e2 => .error e2
        | .ok variants => .ok (spec :: variants)

/-- `VariantExtractor.extract_variants`: resolve the registry file (its
name comes from configuration, modelled as the `registryFile` argument),
demand a sequence `oneOf` (missing defaults to the empty sequence),
parse it, and treat an empty variant list as an error; every non-
`VariantExtractionError` failure is wrapped, `VariantExtractionError`
re-raised unchanged.  The fuel artifact passes through unwrapped. -/
def extractVariants (fuel : Nat) (fs : FS) (registryFile : String) :
    Except Err (List DatabaseVariantSpec) :=
  let body : Except Err (List DatabaseVariantSpec) :=
    match resolveFile fuel fs registryFile with
    | .error e => .error e
    | .ok schema =>
      match schema with
      | .obj f =>
        match (getField f ONEOF).getD (.arr []) with
        | .arr oneofItems =>
          match parseOneofBlock oneofItems with
          | .error e => .error e
          | .ok [] => .error (.variantExtraction ("No variants found in " ++ registryFile))
          | .ok variants => .ok variants
        | _ => .error (.variantExtraction ("Invalid oneOf structure in " ++ registryFile))
      | _ => .error (.typeErr "resolved registry document is not a mapping")
  match body with
  | .ok v => .ok v
  | .error (.variantExtraction m) => .error (.variantExtraction m)
  | .error .outOfFuel => .error .outOfFuel
  | .error e =>
    .error (.variantExtraction
      ("Failed to extract variants from " ++ registryFile ++ ": " ++ errMsg e))



/- No `$ref` key occurs anywhere in the tree (`noRefJSON`): the spec's
notion of a fully dereferenced document. -/
mutual
def noRefJSON : JSON → Bool
  | .obj fields => noRefFields fields
  | .arr items => noRefItems items
  | _ => true
def noRefFields : List (String × JSON) → Bool
  | [] => true
  | (k, v) :: rest => (k != REF) && noRefJSON v && noRefFields rest
def noRefItems : List JSON → Bool
  | [] => true
  | x :: rest => noRefJSON x && noRefItems rest
end


/- The side conditions (`cleanJSON`) under which resolution does eliminate every
`$ref` (amended claim C1): every mapping carrying `$ref` is a singleton
(the source copies sibling values verbatim, without resolving them), and
no sequence occurs directly inside a sequence (the source's element-wise
resolution only descends into mapping elements, and `dict()` of a
sequence of pairs can even re-introduce a `$ref` key). -/
mutual
def cleanJSON : JSON → Bool
  | .obj fields => (!(hasField fields REF) || fields.length == 1) && cleanFields fields
  | .arr items => cleanItems items
  | _ => true
def cleanFields : List (String × JSON) → Bool
  | [] => true
  | (_, v) :: rest => cleanJSON v && cleanFields rest
def cleanItems : List JSON → Bool
  | [] => true
  | .obj f :: rest => cleanJSON (.obj f) && cleanItems rest
  | .arr _ :: _ => false
  | _ :: rest => cleanItems rest
end


/-- The local mutually-referential store of claim C4: `$defs`-style
pointers `a` and `b` referencing each other inside one file, reached
from a property. -/
def C4fsLocal : FS :=
  [("spec.json", JSON.obj
    [("properties", JSON.obj [("x", JSON.obj [(REF, JSON.str "#/defs/a")])]),
     ("defs", JSON.obj
       [("a", JSON.obj [(REF, JSON.str "#/defs/b")]),
        ("b", JSON.obj [(REF, JSON.str "#/defs/a")])])])]


/-- The external mutually-referential store of claim C4: file `a.json`
references `b.json` and vice versa. -/
def C4fsExternal : FS :=
  [("a.json", JSON.obj [(REF, JSON.str "b.json")]),
   ("b.json", JSON.obj [(REF, JSON.str "a.json")])]


/-- The store of claim C1's counterexample: the root document carries a
`$ref` together with a sibling key whose value itself contains a
`$ref`. -/
def C1fs : FS :=
  [("root.json", JSON.obj
    [(REF, JSON.str "other.json"),
     ("extra", JSON.obj [(REF, JSON.str "#/a")])]),
   ("other.json", JSON.obj [("a", JSON.obj [("t", JSON.str "x")])])]


/-- The document of claim C8: keys literally containing a slash and a
tilde, with mapping values (the pointer algorithm requires the final
value to be a mapping). -/
def C8doc : JSON :=
  JSON.obj [("a/b", JSON.obj [("x", JSON.num 1)]), ("a~b", JSON.obj [("y", JSON.num 2)])]


/-- The variant used by the merger claims. -/
def pgVariant : DatabaseVariantSpec :=
  { engine := "postgresql", version := "15.0", engineSpecPath := none }


/-- A one-branch `oneOf` list advertising MySQL 8.0 only
(claim C2's witness input). -/
def C2branch : JSON :=
  JSON.obj [("properties", JSON.obj
    [("engine", JSON.obj [("const", JSON.str "mysql")]),
     ("version", JSON.obj [("const", JSON.str "8.0")])])]


/-- The store of claim C6: the spec's merge-sibling-wins example. -/
def C6fs : FS :=
  [("root.json", JSON.obj [(REF, JSON.str "x.json"), ("title", JSON.str "override")]),
   ("x.json", JSON.obj [("title", JSON.str "original"), ("type", JSON.str "object")])]


/-- The registry branch of claim C7's counterexample: both consts are
strings, but the engine const is the empty string. -/
def C7branch : JSON :=
  JSON.obj [("properties", JSON.obj
    [("engine", JSON.obj [("const", JSON.str "")]),
     ("version", JSON.obj [("const", JSON.str "1.0")])])]

theorem getField_nil (k : String) : getField [] k = none := rfl

theorem getField_cons (k j : String) (v : JSON) (l : List (String × JSON)) :
    getField ((k, v) :: l) j = if k = j then some v else getField l j := by
  simp only [getField, List.find?]
  by_cases h : k = j
  · subst h; simp
  · have hb : (k == j) = false := beq_eq_false_iff_ne.mpr h
    simp [hb, h]

theorem getField_eq_none_of_not_any (l : List (String × JSON)) (k : String)
    (h : l.any (fun p => p.1 == k) = false) : getField l k = none := by
  induction l with
  | nil => rfl
  | cons p rest ih =>
    obtain ⟨k0, v0⟩ := p
    simp only [List.any_cons, Bool.or_eq_false_iff] at h
    have hne : k0 ≠ k := by
      intro hh; rw [hh] at h; simp at h
    rw [getField_cons, if_neg hne]
    exact ih h.2

theorem getField_append (l1 l2 : List (String × JSON)) (j : String) :
    getField (l1 ++ l2) j =
      match getField l1 j with
      | some v => some v
      | none => getField l2 j := by
  induction l1 with
  | nil => simp [getField_nil]
  | cons p rest ih =>
    obtain ⟨k0, v0⟩ := p
    by_cases h : k0 = j
    · simp [getField_cons, h]
    · simp only [List.cons_append, getField_cons, if_neg h, ih]

theorem getField_map_update_ne (l : List (String × JSON)) (k j : String) (v : JSON)
    (hne : k ≠ j) :
    getField (l.map (fun p => if p.1 == k then (k, v) else p)) j = getField l j := by
  induction l with
  | nil => rfl
  | cons p rest ih =>
    obtain ⟨k0, v0⟩ := p
    by_cases h0 : k0 = k
    · subst h0
      simp only [List.map_cons, beq_self_eq_true, if_true]
      rw [getField_cons, getField_cons, if_neg hne, if_neg hne]
      exact ih
    · have hb : (k0 == k) = false := beq_eq_false_iff_ne.mpr h0
      simp only [List.map_cons, hb, Bool.false_eq_true, if_false, getField_cons, ih]

theorem getField_setField (l : List (String × JSON)) (k j : String) (v : JSON) :
    getField (setField l k v) j = if k = j then some v else getField l j := by
  by_cases hk : l.any (fun p => p.1 == k) = true
  · simp only [setField, hk, if_true]
    by_cases hj : k = j
    · subst hj
      rw [if_pos rfl]
      induction l with
      | nil => simp at hk
      | cons p rest ih =>
        obtain ⟨k0, v0⟩ := p
        by_cases h0 : k0 = k
        · subst h0
          simp only [List.map_cons, beq_self_eq_true, if_true]
          simp [getField_cons]
        · have hb : (k0 == k) = false := beq_eq_false_iff_ne.mpr h0
          simp only [List.any_cons, hb, Bool.false_or] at hk
          simp only [List.map_cons, hb, Bool.false_eq_true, if_false, getField_cons,
            if_neg h0]
          exact ih hk
    · rw [if_neg hj]
      exact getField_map_update_ne l k j v hj
  · rw [Bool.not_eq_true] at hk
    simp only [setField, hk, Bool.false_eq_true, if_false, getField_append]
    by_cases hj : k = j
    · subst hj
      rw [getField_eq_none_of_not_any l k hk]
      simp [getField_cons]
    · rw [if_neg hj]
      cases hg : getField l j with
      | some v0 => rfl
      | none => simp [getField_cons, if_neg hj, getField_nil]

theorem hasField_iff_getField (l : List (String × JSON)) (k : String) :
    hasField l k = true ↔ ∃ v, getField l k = some v := by
  induction l with
  | nil => simp [hasField, getField]
  | cons p rest ih =>
    obtain ⟨k0, v0⟩ := p
    by_cases h : k0 = k
    · subst h
      simp [hasField, getField_cons]
    · have hb : (k0 == k) = false := beq_eq_false_iff_ne.mpr h
      simp only [hasField, List.any_cons, hb, Bool.false_or, getField_cons, if_neg h]
      exact ih

theorem getField_delField (l : List (String × JSON)) (k j : String) :
    getField (delField l k) j = if k = j then none else getField l j := by
  induction l with
  | nil => simp [delField, getField_nil]
  | cons p rest ih =>
    obtain ⟨k0, v0⟩ := p
    by_cases h0 : k0 = k
    · subst h0
      simp only [delField, List.filter_cons, bne_self_eq_false, Bool.false_eq_true,
        if_false]
      rw [delField] at ih
      rw [ih]
      by_cases hj : k0 = j
      · simp [hj]
      · simp [hj, getField_cons, if_neg hj]
    · have hb : (k0 != k) = true := by
        simp [bne, beq_eq_false_iff_ne.mpr h0]
      simp only [delField, List.filter_cons, hb, if_true]
      rw [delField] at ih
      rw [getField_cons, getField_cons, ih]
      by_cases hj : k0 = j
      · subst hj
        have : k ≠ k0 := fun hh => h0 hh.symm
        simp [if_neg this]
      · simp [if_neg hj]

theorem resolveItemsWith_mono {r1 r2 : JSON → Except Err JSON}
    (h : ∀ v out, r1 v = out → out ≠ .error .outOfFuel → r2 v = out) :
    ∀ (l : List JSON) (res : Except Err (List JSON)),
      resolveItemsWith r1 l = res → res ≠ .error .outOfFuel →
      resolveItemsWith r2 l = res := by
  intro l
  induction l with
  | nil => intro res h1 _; exact h1
  | cons item rest ih =>
    intro res h1 h2
    cases item with
    | obj f =>
      simp only [resolveItemsWith] at h1 ⊢
      cases hi : r1 (JSON.obj f) with
      | error e =>
        rw [hi] at h1
        dsimp only at h1
        cases h1
        have he : e ≠ Err.outOfFuel := by
          intro hh; subst hh; exact h2 rfl
        have he2 : (Except.error e : Except Err JSON) ≠ .error .outOfFuel := by
          intro hh; injection hh with h3; exact he h3
        rw [h (JSON.obj f) (.error e) hi he2]
      | ok item2 =>
        rw [hi] at h1
        dsimp only at h1
        rw [h (JSON.obj f) (.ok item2) hi (by intro hh; cases hh)]
        dsimp only
        cases hr : resolveItemsWith r1 rest with
        | error e =>
          rw [hr] at h1
          dsimp only at h1
          cases h1
          rw [ih (.error e) hr h2]
        | ok rest2 =>
          rw [hr] at h1
          dsimp only at h1
          cases h1
          rw [ih (.ok rest2) hr (by intro hh; cases hh)]
    | str s =>
      simp only [resolveItemsWith] at h1 ⊢
      cases hr : resolveItemsWith r1 rest with
      | error e =>
        rw [hr] at h1; dsimp only at h1; cases h1
        rw [ih (.error e) hr h2]
      | ok rest2 =>
        rw [hr] at h1; dsimp only at h1; cases h1
        rw [ih (.ok rest2) hr (by intro hh; cases hh)]
    | num n =>
      simp only [resolveItemsWith] at h1 ⊢
      cases hr : resolveItemsWith r1 rest with
      | error e =>
        rw [hr] at h1; dsimp only at h1; cases h1
        rw [ih (.error e) hr h2]
      | ok rest2 =>
        rw [hr] at h1; dsimp only at h1; cases h1
        rw [ih (.ok rest2) hr (by intro hh; cases hh)]
    | bool b =>
      simp only [resolveItemsWith] at h1 ⊢
      cases hr : resolveItemsWith r1 rest with
      | error e =>
        rw [hr] at h1; dsimp only at h1; cases h1
        rw [ih (.error e) hr h2]
      | ok rest2 =>
        rw [hr] at h1; dsimp only at h1; cases h1
        rw [ih (.ok rest2) hr (by intro hh; cases hh)]
    | null =>
      simp only [resolveItemsWith] at h1 ⊢
      cases hr : resolveItemsWith r1 rest with
      | error e =>
        rw [hr] at h1; dsimp only at h1; cases h1
        rw [ih (.error e) hr h2]
      | ok rest2 =>
        rw [hr] at h1; dsimp only at h1; cases h1
        rw [ih (.ok rest2) hr (by intro hh; cases hh)]
    | arr its =>
      simp only [resolveItemsWith] at h1 ⊢
      cases hr : resolveItemsWith r1 rest with
      | error e =>
        rw [hr] at h1; dsimp only at h1; cases h1
        rw [ih (.error e) hr h2]
      | ok rest2 =>
        rw [hr] at h1; dsimp only at h1; cases h1
        rw [ih (.ok rest2) hr (by intro hh; cases hh)]

theorem resolveFieldsWith_mono {r1 r2 : JSON → Except Err JSON}
    (h : ∀ v out, r1 v = out → out ≠ .error .outOfFuel → r2 v = out) :
    ∀ (l : List (String × JSON)) (res : Except Err (List (String × JSON))),
      resolveFieldsWith r1 l = res → res ≠ .error .outOfFuel →
      resolveFieldsWith r2 l = res := by
  intro l
  induction l with
  | nil => intro res h1 _; exact h1
  | cons p rest ih =>
    obtain ⟨k, v⟩ := p
    intro res h1 h2
    cases v with
    | obj f =>
      simp only [resolveFieldsWith] at h1 ⊢
      cases hi : r1 (JSON.obj f) with
      | error e =>
        rw [hi] at h1
        dsimp only at h1
        cases h1
        have he : e ≠ Err.outOfFuel := by
          intro hh; subst hh; exact h2 rfl
        have he2 : (Except.error e : Except Err JSON) ≠ .error .outOfFuel := by
          intro hh; injection hh with h3; exact he h3
        rw [h (JSON.obj f) (.error e) hi he2]
      | ok v2 =>
        rw [hi] at h1
        dsimp only at h1
        rw [h (JSON.obj f) (.ok v2) hi (by intro hh; cases hh)]
        dsimp only
        cases hr : resolveFieldsWith r1 rest with
        | error e =>
          rw [hr] at h1; dsimp only at h1; cases h1
          rw [ih (.error e) hr h2]
        | ok rest2 =>
          rw [hr] at h1; dsimp only at h1; cases h1
          rw [ih (.ok rest2) hr (by intro hh; cases hh)]
    | arr its =>
      simp only [resolveFieldsWith] at h1 ⊢
      cases hi : resolveItemsWith r1 its with
      | error e =>
        rw [hi] at h1
        dsimp only at h1
        cases h1
        have he : e ≠ Err.outOfFuel := by
          intro hh; subst hh; exact h2 rfl
        have he2 : (Except.error e : Except Err (List JSON)) ≠ .error .outOfFuel := by
          intro hh; injection hh with h3; exact he h3
        rw [resolveItemsWith_mono h its (.error e) hi he2]
      | ok its2 =>
        rw [hi] at h1
        dsimp only at h1
        rw [resolveItemsWith_mono h its (.ok its2) hi (by intro hh; cases hh)]
        dsimp only
        cases hr : resolveFieldsWith r1 rest with
        | error e =>
          rw [hr] at h1; dsimp only at h1; cases h1
          rw [ih (.error e) hr h2]
        | ok rest2 =>
          rw [hr] at h1; dsimp only at h1; cases h1
          rw [ih (.ok rest2) hr (by intro hh; cases hh)]
    | str s =>
      simp only [resolveFieldsWith] at h1 ⊢
      cases hr : resolveFieldsWith r1 rest with
      | error e =>
        rw [hr] at h1; dsimp only at h1; cases h1
        rw [ih (.error e) hr h2]
      | ok rest2 =>
        rw [hr] at h1; dsimp only at h1; cases h1
        rw [ih (.ok rest2) hr (by intro hh; cases hh)]
    | num n =>
      simp only [resolveFieldsWith] at h1 ⊢
      cases hr : resolveFieldsWith r1 rest with
      | error e =>
        rw [hr] at h1; dsimp only at h1; cases h1
        rw [ih (.error e) hr h2]
      | ok rest2 =>
        rw [hr] at h1; dsimp only at h1; cases h1
        rw [ih (.ok rest2) hr (by intro hh; cases hh)]
    | bool b =>
      simp only [resolveFieldsWith] at h1 ⊢
      cases hr : resolveFieldsWith r1 rest with
      | error e =>
        rw [hr] at h1; dsimp only at h1; cases h1
        rw [ih (.error e) hr h2]
      | ok rest2 =>
        rw [hr] at h1; dsimp only at h1; cases h1
        rw [ih (.ok rest2) hr (by intro hh; cases hh)]
    | null =>
      simp only [resolveFieldsWith] at h1 ⊢
      cases hr : resolveFieldsWith r1 rest with
      | error e =>
        rw [hr] at h1; dsimp only at h1; cases h1
        rw [ih (.error e) hr h2]
      | ok rest2 =>
        rw [hr] at h1; dsimp only at h1; cases h1
        rw [ih (.ok rest2) hr (by intro hh; cases hh)]

theorem resolveRefWith_mono {r1 r2 : List String → Option String → JSON → Except Err JSON}
    (h : ∀ st c v out, r1 st c v = out → out ≠ .error .outOfFuel → r2 st c v = out)
    (fs : FS) (stack : List String) (cur : Option String)
    (fields : List (String × JSON)) (refPath : String) (res : Except Err JSON)
    (h1 : resolveRefWith r1 fs stack cur fields refPath = res)
    (h2 : res ≠ .error .outOfFuel) :
    resolveRefWith r2 fs stack cur fields refPath = res := by
  simp only [resolveRefWith] at h1 ⊢
  by_cases hc : stack.contains (resolutionKey cur refPath) = true
  · rw [if_pos hc] at h1 ⊢; exact h1
  · rw [if_neg hc] at h1 ⊢
    cases hp : (parseRef refPath).1 with
    | some filePart =>
      rw [hp] at h1
      dsimp only at h1 ⊢
      cases hl : loadReferencedFile fs filePart cur with
      | error e => rw [hl] at h1; dsimp only at h1 ⊢; exact h1
      | ok content0 =>
        rw [hl] at h1
        dsimp only at h1 ⊢
        cases hpe :
            (match (parseRef refPath).2 with
             | some ptr => resolveJsonPointer content0 ptr refPath
             | none => .ok content0) with
        | error e => rw [hpe] at h1; dsimp only at h1 ⊢; exact h1
        | ok content =>
          rw [hpe] at h1
          dsimp only at h1 ⊢
          cases hr : r1 (stack ++ [resolutionKey cur refPath]) (some (refTargetPath cur filePart)) content with
          | error e =>
            rw [hr] at h1; dsimp only at h1; cases h1
            have he : e ≠ Err.outOfFuel := by
              intro hh; subst hh; exact h2 rfl
            have he2 : (Except.error e : Except Err JSON) ≠ .error .outOfFuel := by
              intro hh; injection hh with h3; exact he h3
            rw [h _ _ _ (.error e) hr he2]
          | ok resolved =>
            rw [hr] at h1; dsimp only at h1
            rw [h _ _ _ (.ok resolved) hr (by intro hh; cases hh)]
            exact h1
    | none =>
      rw [hp] at h1
      dsimp only at h1 ⊢
      cases hp2 : (parseRef refPath).2 with
      | none => rw [hp2] at h1; dsimp only at h1 ⊢; exact h1
      | some ptr =>
        rw [hp2] at h1
        dsimp only at h1 ⊢
        cases cur with
        | none => exact h1
        | some cf =>
          dsimp only at h1 ⊢
          cases hl : loadFS fs cf with
          | none => rw [hl] at h1; dsimp only at h1 ⊢; exact h1
          | some root =>
            rw [hl] at h1
            dsimp only at h1 ⊢
            cases hj : resolveJsonPointer root ptr refPath with
            | error e => rw [hj] at h1; dsimp only at h1 ⊢; exact h1
            | ok content =>
              rw [hj] at h1
              dsimp only at h1 ⊢
              cases hr : r1 (stack ++ [resolutionKey (some cf) refPath]) (some cf) content with
              | error e =>
                rw [hr] at h1; dsimp only at h1; cases h1
                have he : e ≠ Err.outOfFuel := by
                  intro hh; subst hh; exact h2 rfl
                have he2 : (Except.error e : Except Err JSON) ≠ .error .outOfFuel := by
                  intro hh; injection hh with h3; exact he h3
                rw [h _ _ _ (.error e) hr he2]
              | ok resolved =>
                rw [hr] at h1; dsimp only at h1
                rw [h _ _ _ (.ok resolved) hr (by intro hh; cases hh)]
                exact h1

theorem resolveReferences_succ_obj_noref (fuel : Nat) (fs : FS) (stack : List String)
    (cur : Option String) (fields : List (String × JSON))
    (hg : getField fields REF = none) :
    resolveReferences (fuel + 1) fs stack cur (.obj fields)
      = (resolveFieldsWith (fun v => resolveReferences fuel fs stack cur v) fields).map JSON.obj := by
  simp only [resolveReferences, hg]

theorem resolveReferences_succ_obj_ref (fuel : Nat) (fs : FS) (stack : List String)
    (cur : Option String) (fields : List (String × JSON)) (refPath : String)
    (hg : getField fields REF = some (.str refPath)) :
    resolveReferences (fuel + 1) fs stack cur (.obj fields)
      = resolveRefWith (fun st c v => resolveReferences fuel fs st c v) fs stack cur fields refPath := by
  simp only [resolveReferences, hg]

theorem resolveReferences_mono :
    ∀ (fuel : Nat) (fs : FS) (stack : List String) (cur : Option String)
      (s : JSON) (res : Except Err JSON),
      resolveReferences fuel fs stack cur s = res → res ≠ .error .outOfFuel →
      resolveReferences (fuel + 1) fs stack cur s = res := by
  intro fuel
  induction fuel with
  | zero =>
    intro fs stack cur s res h1 h2
    cases h1
    exact absurd rfl h2
  | succ fuel ih =>
    intro fs stack cur s res h1 h2
    cases s with
    | obj fields =>
      cases hg : getField fields REF with
      | none =>
        rw [resolveReferences_succ_obj_noref fuel fs stack cur fields hg] at h1
        rw [resolveReferences_succ_obj_noref (fuel + 1) fs stack cur fields hg]
        cases hf : resolveFieldsWith (fun v => resolveReferences fuel fs stack cur v) fields with
        | error e =>
          rw [hf] at h1
          dsimp only [Except.map] at h1
          cases h1
          have he : e ≠ Err.outOfFuel := by
            intro hh; subst hh; exact h2 rfl
          have he2 : (Except.error e : Except Err (List (String × JSON))) ≠ .error .outOfFuel := by
            intro hh; injection hh with h3; exact he h3
          rw [resolveFieldsWith_mono (fun v out hv ho => ih fs stack cur v out hv ho)
            fields (.error e) hf he2]
          rfl
        | ok fields2 =>
          rw [hf] at h1
          rw [resolveFieldsWith_mono (fun v out hv ho => ih fs stack cur v out hv ho)
            fields (.ok fields2) hf (by intro hh; cases hh)]
          exact h1
      | some refVal =>
        cases refVal with
        | str refPath =>
          rw [resolveReferences_succ_obj_ref fuel fs stack cur fields refPath hg] at h1
          rw [resolveReferences_succ_obj_ref (fuel + 1) fs stack cur fields refPath hg]
          exact resolveRefWith_mono
            (fun st c v out hv ho => ih fs st c v out hv ho)
            fs stack cur fields refPath res h1 h2
        | num n => simp only [resolveReferences, hg] at h1 ⊢; exact h1
        | bool b => simp only [resolveReferences, hg] at h1 ⊢; exact h1
        | null => simp only [resolveReferences, hg] at h1 ⊢; exact h1
        | arr its => simp only [resolveReferences, hg] at h1 ⊢; exact h1
        | obj f2 => simp only [resolveReferences, hg] at h1 ⊢; exact h1
    | str s2 => exact h1
    | num n => exact h1
    | bool b => exact h1
    | null => exact h1
    | arr its => exact h1

theorem resolveReferences_mono_le
    (fuel fuel2 : Nat) (hle : fuel ≤ fuel2) (fs : FS) (stack : List String)
    (cur : Option String) (s : JSON) (res : Except Err JSON)
    (h1 : resolveReferences fuel fs stack cur s = res)
    (h2 : res ≠ .error .outOfFuel) :
    resolveReferences fuel2 fs stack cur s = res := by
  induction fuel2 with
  | zero =>
    have : fuel = 0 := Nat.le_zero.mp hle
    subst this
    exact h1
  | succ n ihn =>
    rcases Nat.lt_or_ge fuel (n + 1) with hlt | hge
    · have : fuel ≤ n := Nat.lt_succ_iff.mp hlt
      exact resolveReferences_mono n fs stack cur s res (ihn this) h2
    · have : fuel = n + 1 := Nat.le_antisymm hle hge
      subst this
      exact h1

theorem resolveFile_mono_le
    (fuel fuel2 : Nat) (hle : fuel ≤ fuel2) (fs : FS) (filePath : String)
    (res : Except Err JSON)
    (h1 : resolveFile fuel fs filePath = res)
    (h2 : res ≠ .error .outOfFuel) :
    resolveFile fuel2 fs filePath = res := by
  simp only [resolveFile] at h1 ⊢
  cases hl : loadFS fs filePath with
  | none => rw [hl] at h1; exact h1
  | some schema =>
    rw [hl] at h1
    dsimp only at h1 ⊢
    cases hr : resolveReferences fuel fs [] (some filePath) schema with
    | error e =>
      rw [hr] at h1
      have he : e ≠ Err.outOfFuel := by
        intro hh
        subst hh
        dsimp only at h1
        cases h1
        exact h2 rfl
      have he2 : (Except.error e : Except Err JSON) ≠ .error .outOfFuel := by
        intro hh; injection hh with h3; exact he h3
      rw [resolveReferences_mono_le fuel fuel2 hle fs [] (some filePath) schema (.error e) hr he2]
      exact h1
    | ok v =>
      rw [hr] at h1
      rw [resolveReferences_mono_le fuel fuel2 hle fs [] (some filePath) schema (.ok v) hr
        (by intro hh; cases hh)]
      exact h1

theorem getField_mem (l : List (String × JSON)) (k : String) (v : JSON)
    (h : getField l k = some v) : (k, v) ∈ l := by
  induction l with
  | nil => cases h
  | cons p rest ih =>
    obtain ⟨k0, v0⟩ := p
    rw [getField_cons] at h
    by_cases h0 : k0 = k
    · rw [if_pos h0] at h
      injection h with h2
      subst h0; subst h2
      exact List.mem_cons_self _ _
    · rw [if_neg h0] at h
      exact List.mem_cons_of_mem _ (ih h)

theorem loadFS_mem (fs : FS) (path : String) (d : JSON)
    (h : loadFS fs path = some d) : (path, d) ∈ fs := by
  unfold loadFS at h
  cases hf : (fs : List (String × JSON)).find? (fun p => p.1 == path) with
  | none => rw [hf] at h; cases h
  | some p =>
    rw [hf] at h
    injection h with h2
    have hmem := List.mem_of_find?_eq_some hf
    have hp := List.find?_some hf
    have hpe : p.1 = path := by
      have hp2 : (p.1 == path) = true := hp
      exact eq_of_beq hp2
    cases p with
    | mk p1 p2 =>
      dsimp at h2 hpe
      subst h2; subst hpe
      exact hmem

theorem cleanFields_getField (l : List (String × JSON)) (k : String) (v : JSON)
    (hc : cleanFields l = true) (h : getField l k = some v) : cleanJSON v = true := by
  induction l with
  | nil => cases h
  | cons p rest ih =>
    obtain ⟨k0, v0⟩ := p
    have hc3 : cleanJSON v0 = true ∧ cleanFields rest = true := by
      have hc2 : (cleanJSON v0 && cleanFields rest) = true := hc
      simp only [Bool.and_eq_true] at hc2
      exact hc2
    rw [getField_cons] at h
    by_cases h0 : k0 = k
    · rw [if_pos h0] at h
      injection h with h2
      subst h2
      exact hc3.1
    · rw [if_neg h0] at h
      exact ih hc3.2 h

theorem cleanItems_mem (l : List JSON) (x : JSON)
    (hc : cleanItems l = true) (h : x ∈ l) : cleanJSON x = true := by
  induction l with
  | nil => cases h
  | cons y rest ih =>
    rcases List.mem_cons.mp h with h1 | h1
    · subst h1
      cases x with
      | obj f =>
        have hc2 : (cleanJSON (JSON.obj f) && cleanItems rest) = true := hc
        simp only [Bool.and_eq_true] at hc2
        exact hc2.1
      | arr its => exact Bool.noConfusion hc
      | str s => rfl
      | num n => rfl
      | bool b => rfl
      | null => rfl
    · cases y with
      | obj f =>
        have hc2 : (cleanJSON (JSON.obj f) && cleanItems rest) = true := hc
        simp only [Bool.and_eq_true] at hc2
        exact ih hc2.2 h1
      | arr its => exact Bool.noConfusion hc
      | str s => exact ih hc h1
      | num n => exact ih hc h1
      | bool b => exact ih hc h1
      | null => exact ih hc h1

theorem pyIndex_mem (items : List JSON) (i : Int) (v : JSON)
    (h : pyIndex items i = some v) : v ∈ items := by
  unfold pyIndex at h
  by_cases h0 : 0 ≤ i
  · rw [if_pos h0] at h
    exact List.get?_mem h
  · rw [if_neg h0] at h
    by_cases h1 : 0 ≤ (items.length : Int) + i
    · rw [if_pos h1] at h
      exact List.get?_mem h
    · rw [if_neg h1] at h
      cases h

theorem resolvePointerSteps_clean (originalRef pointer : String) :
    ∀ (parts : List String) (current sub : JSON),
      cleanJSON current = true →
      resolvePointerSteps originalRef pointer parts current = .ok sub →
      cleanJSON sub = true := by
  intro parts
  induction parts with
  | nil =>
    intro current sub hc h
    injection h with h2
    subst h2
    exact hc
  | cons part rest ih =>
    intro current sub hc h
    cases current with
    | obj fields =>
      simp only [resolvePointerSteps] at h
      cases hg : getField fields (unescapeSegment part) with
      | none => rw [hg] at h; cases h
      | some v =>
        rw [hg] at h
        dsimp only at h
        have hcf : cleanFields fields = true := by
          have hcv : ((!(hasField fields REF) || fields.length == 1) && cleanFields fields) = true := hc
          simp only [Bool.and_eq_true] at hcv
          exact hcv.2
        exact ih v sub (cleanFields_getField fields _ v hcf hg) h
    | arr items =>
      simp only [resolvePointerSteps] at h
      cases hpi : pyToInt (unescapeSegment part) with
      | none => rw [hpi] at h; cases h
      | some i =>
        rw [hpi] at h
        dsimp only at h
        cases hix : pyIndex items i with
        | none => rw [hix] at h; cases h
        | some v =>
          rw [hix] at h
          dsimp only at h
          have hci : cleanItems items = true := hc
          exact ih v sub (cleanItems_mem items v hci (pyIndex_mem items i v hix)) h
    | str s => simp only [resolvePointerSteps] at h; cases h
    | num n => simp only [resolvePointerSteps] at h; cases h
    | bool b => simp only [resolvePointerSteps] at h; cases h
    | null => simp only [resolvePointerSteps] at h; cases h

theorem resolveJsonPointer_clean (document : JSON) (pointer originalRef : String)
    (sub : JSON) (hc : cleanJSON document = true)
    (h : resolveJsonPointer document pointer originalRef = .ok sub) :
    cleanJSON sub = true := by
  unfold resolveJsonPointer at h
  by_cases h0 : pointer = "" ∨ pointer = "/"
  · rw [if_pos h0] at h
    injection h with h2
    subst h2
    exact hc
  · rw [if_neg h0] at h
    cases hs : resolvePointerSteps originalRef pointer (splitChar '/' (lstripSlash pointer)) document with
    | error e => rw [hs] at h; cases h
    | ok current =>
      rw [hs] at h
      dsimp only at h
      cases current with
      | obj f =>
        injection h with h2
        subst h2
        exact resolvePointerSteps_clean originalRef pointer _ document (JSON.obj f) hc hs
      | arr its => cases h
      | str s => cases h
      | num n => cases h
      | bool b => cases h
      | null => cases h

theorem clean_ref_singleton (fields : List (String × JSON)) (v : JSON)
    (hc : cleanJSON (JSON.obj fields) = true)
    (hg : getField fields REF = some v) : fields = [(REF, v)] := by
  have hhf : hasField fields REF = true :=
    (hasField_iff_getField fields REF).mpr ⟨v, hg⟩
  have hc2 : ((!(hasField fields REF) || fields.length == 1) && cleanFields fields) = true := hc
  simp only [Bool.and_eq_true, Bool.or_eq_true, Bool.not_eq_true, hhf] at hc2
  have hlen : fields.length = 1 := by
    rcases hc2.1 with h1 | h1
    · cases h1
    · exact eq_of_beq h1
  cases fields with
  | nil => cases hg
  | cons p0 rest0 =>
    obtain ⟨k0, v0⟩ := p0
    cases rest0 with
    | nil =>
      rw [getField_cons] at hg
      by_cases h0 : k0 = REF
      · rw [if_pos h0] at hg
        injection hg with h2
        subst h0; subst h2
        rfl
      · rw [if_neg h0] at hg
        cases hg
    | cons p1 rest1 =>
      simp at hlen

theorem mergeOverlay_singleton_ref (base : List (String × JSON)) (v : JSON) :
    mergeOverlay base [(REF, v)] = base := by
  simp [mergeOverlay]

theorem mergeSchemaWithRef_shape (schemaFields : List (String × JSON)) (resolved out : JSON)
    (h : mergeSchemaWithRef schemaFields resolved = .ok out) :
    ∃ g, out = .obj g := by
  unfold mergeSchemaWithRef at h
  cases hd : pyDictOf resolved with
  | error e => rw [hd] at h; cases h
  | ok base =>
    rw [hd] at h
    injection h with h2
    exact ⟨mergeOverlay base schemaFields, h2.symm⟩

theorem resolveRefWith_ok_shape (r : List String → Option String → JSON → Except Err JSON)
    (fs : FS) (stack : List String) (cur : Option String)
    (fields : List (String × JSON)) (refPath : String) (out : JSON)
    (h : resolveRefWith r fs stack cur fields refPath = .ok out) :
    ∃ g, out = .obj g := by
  simp only [resolveRefWith] at h
  by_cases hc : stack.contains (resolutionKey cur refPath) = true
  · rw [if_pos hc] at h; cases h
  · rw [if_neg hc] at h
    cases hp : (parseRef refPath).1 with
    | some filePart =>
      rw [hp] at h
      dsimp only at h
      cases hl : loadReferencedFile fs filePart cur with
      | error e => rw [hl] at h; cases h
      | ok content0 =>
        rw [hl] at h
        dsimp only at h
        cases hpe :
            (match (parseRef refPath).2 with
             | some ptr => resolveJsonPointer content0 ptr refPath
             | none => .ok content0) with
        | error e => rw [hpe] at h; cases h
        | ok content =>
          rw [hpe] at h
          dsimp only at h
          cases hr : r (stack ++ [resolutionKey cur refPath]) (some (refTargetPath cur filePart)) content with
          | error e => rw [hr] at h; cases h
          | ok resolved =>
            rw [hr] at h
            dsimp only at h
            exact mergeSchemaWithRef_shape fields resolved out h
    | none =>
      rw [hp] at h
      dsimp only at h
      cases hp2 : (parseRef refPath).2 with
      | none => rw [hp2] at h; cases h
      | some ptr =>
        rw [hp2] at h
        dsimp only at h
        cases cur with
        | none => cases h
        | some cf =>
          dsimp only at h
          cases hl : loadFS fs cf with
          | none => rw [hl] at h; cases h
          | some root =>
            rw [hl] at h
            dsimp only at h
            cases hj : resolveJsonPointer root ptr refPath with
            | error e => rw [hj] at h; cases h
            | ok content =>
              rw [hj] at h
              dsimp only at h
              cases hr : r (stack ++ [resolutionKey (some cf) refPath]) (some cf) content with
              | error e => rw [hr] at h; cases h
              | ok resolved =>
                rw [hr] at h
                dsimp only at h
                exact mergeSchemaWithRef_shape fields resolved out h

theorem resolveReferences_obj_shape (fuel : Nat) (fs : FS) (stack : List String)
    (cur : Option String) (fields : List (String × JSON)) (out : JSON)
    (h : resolveReferences fuel fs stack cur (.obj fields) = .ok out) :
    ∃ g, out = .obj g := by
  cases fuel with
  | zero => cases h
  | succ fuel =>
    cases hg : getField fields REF with
    | none =>
      rw [resolveReferences_succ_obj_noref fuel fs stack cur fields hg] at h
      cases hf : resolveFieldsWith (fun v => resolveReferences fuel fs stack cur v) fields with
      | error e => rw [hf] at h; cases h
      | ok fields2 =>
        rw [hf] at h
        injection h with h2
        exact ⟨fields2, h2.symm⟩
    | some refVal =>
      cases refVal with
      | str refPath =>
        rw [resolveReferences_succ_obj_ref fuel fs stack cur fields refPath hg] at h
        exact resolveRefWith_ok_shape _ fs stack cur fields refPath out h
      | num n => simp only [resolveReferences, hg] at h; cases h
      | bool b => simp only [resolveReferences, hg] at h; cases h
      | null => simp only [resolveReferences, hg] at h; cases h
      | arr its => simp only [resolveReferences, hg] at h; cases h
      | obj f2 => simp only [resolveReferences, hg] at h; cases h

theorem pyDictOf_clean_arr (items : List JSON) (l : List (String × JSON))
    (hc : cleanItems items = true)
    (h : pyDictOf (.arr items) = .ok l) : l = [] := by
  cases items with
  | nil =>
    injection h with h2
    exact h2.symm
  | cons x rest =>
    cases x with
    | obj f => cases h
    | arr its => exact Bool.noConfusion hc
    | str s => cases h
    | num n => cases h
    | bool b => cases h
    | null => cases h

theorem resolveItemsWith_noRef {r : JSON → Except Err JSON}
    (h : ∀ f out, cleanJSON (.obj f) = true → r (.obj f) = .ok out → noRefJSON out = true) :
    ∀ (l l2 : List JSON), cleanItems l = true →
      resolveItemsWith r l = .ok l2 → noRefItems l2 = true := by
  intro l
  induction l with
  | nil =>
    intro l2 _ h2
    injection h2 with h3
    subst h3
    rfl
  | cons x rest ih =>
    intro l2 hc h2
    cases x with
    | obj f =>
      have hc2 : (cleanJSON (JSON.obj f) && cleanItems rest) = true := hc
      simp only [Bool.and_eq_true] at hc2
      simp only [resolveItemsWith] at h2
      cases hi : r (JSON.obj f) with
      | error e => rw [hi] at h2; cases h2
      | ok item2 =>
        rw [hi] at h2
        dsimp only at h2
        cases hr : resolveItemsWith r rest with
        | error e => rw [hr] at h2; cases h2
        | ok rest2 =>
          rw [hr] at h2
          injection h2 with h3
          subst h3
          show (noRefJSON item2 && noRefItems rest2) = true
          rw [h f item2 hc2.1 hi, ih rest2 hc2.2 hr]
          rfl
    | arr its => exact Bool.noConfusion hc
    | str s =>
      simp only [resolveItemsWith] at h2
      cases hr : resolveItemsWith r rest with
      | error e => rw [hr] at h2; cases h2
      | ok rest2 =>
        rw [hr] at h2
        injection h2 with h3
        subst h3
        show (noRefJSON (JSON.str s) && noRefItems rest2) = true
        rw [ih rest2 hc hr]
        rfl
    | num n =>
      simp only [resolveItemsWith] at h2
      cases hr : resolveItemsWith r rest with
      | error e => rw [hr] at h2; cases h2
      | ok rest2 =>
        rw [hr] at h2
        injection h2 with h3
        subst h3
        show (noRefJSON (JSON.num n) && noRefItems rest2) = true
        rw [ih rest2 hc hr]
        rfl
    | bool b =>
      simp only [resolveItemsWith] at h2
      cases hr : resolveItemsWith r rest with
      | error e => rw [hr] at h2; cases h2
      | ok rest2 =>
        rw [hr] at h2
        injection h2 with h3
        subst h3
        show (noRefJSON (JSON.bool b) && noRefItems rest2) = true
        rw [ih rest2 hc hr]
        rfl
    | null =>
      simp only [resolveItemsWith] at h2
      cases hr : resolveItemsWith r rest with
      | error e => rw [hr] at h2; cases h2
      | ok rest2 =>
        rw [hr] at h2
        injection h2 with h3
        subst h3
        show (noRefJSON JSON.null && noRefItems rest2) = true
        rw [ih rest2 hc hr]
        rfl

theorem resolveFieldsWith_noRef {r : JSON → Except Err JSON}
    (h : ∀ f out, cleanJSON (.obj f) = true → r (.obj f) = .ok out → noRefJSON out = true) :
    ∀ (l l2 : List (String × JSON)), hasField l REF = false → cleanFields l = true →
      resolveFieldsWith r l = .ok l2 → noRefFields l2 = true := by
  intro l
  induction l with
  | nil =>
    intro l2 _ _ h2
    injection h2 with h3
    subst h3
    rfl
  | cons p rest ih =>
    obtain ⟨k, v⟩ := p
    intro l2 hkeys hc h2
    have hkc : ((k == REF) || rest.any (fun p => p.1 == REF)) = false := hkeys
    simp only [Bool.or_eq_false_iff] at hkc
    have hkne : (k != REF) = true := by
      simp only [bne, hkc.1, Bool.not_false]
    have hc2 : (cleanJSON v && cleanFields rest) = true := hc
    simp only [Bool.and_eq_true] at hc2
    cases v with
    | obj f =>
      simp only [resolveFieldsWith] at h2
      cases hi : r (JSON.obj f) with
      | error e => rw [hi] at h2; cases h2
      | ok v2 =>
        rw [hi] at h2
        dsimp only at h2
        cases hr : resolveFieldsWith r rest with
        | error e => rw [hr] at h2; cases h2
        | ok rest2 =>
          rw [hr] at h2
          injection h2 with h3
          subst h3
          show ((k != REF) && noRefJSON v2 && noRefFields rest2) = true
          rw [hkne, h f v2 hc2.1 hi, ih rest2 hkc.2 hc2.2 hr]
          rfl
    | arr its =>
      simp only [resolveFieldsWith] at h2
      cases hi : resolveItemsWith r its with
      | error e => rw [hi] at h2; cases h2
      | ok its2 =>
        rw [hi] at h2
        dsimp only at h2
        cases hr : resolveFieldsWith r rest with
        | error e => rw [hr] at h2; cases h2
        | ok rest2 =>
          rw [hr] at h2
          injection h2 with h3
          subst h3
          show ((k != REF) && noRefItems its2 && noRefFields rest2) = true
          have hci : cleanItems its = true := hc2.1
          rw [hkne, resolveItemsWith_noRef h its its2 hci hi, ih rest2 hkc.2 hc2.2 hr]
          rfl
    | str s =>
      simp only [resolveFieldsWith] at h2
      cases hr : resolveFieldsWith r rest with
      | error e => rw [hr] at h2; cases h2
      | ok rest2 =>
        rw [hr] at h2
        injection h2 with h3
        subst h3
        show ((k != REF) && noRefJSON (JSON.str s) && noRefFields rest2) = true
        rw [hkne, ih rest2 hkc.2 hc2.2 hr]
        rfl
    | num n =>
      simp only [resolveFieldsWith] at h2
      cases hr : resolveFieldsWith r rest with
      | error e => rw [hr] at h2; cases h2
      | ok rest2 =>
        rw [hr] at h2
        injection h2 with h3
        subst h3
        show ((k != REF) && noRefJSON (JSON.num n) && noRefFields rest2) = true
        rw [hkne, ih rest2 hkc.2 hc2.2 hr]
        rfl
    | bool b =>
      simp only [resolveFieldsWith] at h2
      cases hr : resolveFieldsWith r rest with
      | error e => rw [hr] at h2; cases h2
      | ok rest2 =>
        rw [hr] at h2
        injection h2 with h3
        subst h3
        show ((k != REF) && noRefJSON (JSON.bool b) && noRefFields rest2) = true
        rw [hkne, ih rest2 hkc.2 hc2.2 hr]
        rfl
    | null =>
      simp only [resolveFieldsWith] at h2
      cases hr : resolveFieldsWith r rest with
      | error e => rw [hr] at h2; cases h2
      | ok rest2 =>
        rw [hr] at h2
        injection h2 with h3
        subst h3
        show ((k != REF) && noRefJSON JSON.null && noRefFields rest2) = true
        rw [hkne, ih rest2 hkc.2 hc2.2 hr]
        rfl

theorem merge_resolved_noRef (fuel : Nat) (fs : FS) (st : List String) (c : Option String)
    (content resolved out v : JSON)
    (ihP : ∀ (stack : List String) (cur : Option String) (f : List (String × JSON)) (o : JSON),
      cleanJSON (.obj f) = true →
      resolveReferences fuel fs stack cur (.obj f) = .ok o → noRefJSON o = true)
    (hclean : cleanJSON content = true)
    (hr : resolveReferences fuel fs st c content = .ok resolved)
    (hm : mergeSchemaWithRef [(REF, v)] resolved = .ok out) :
    noRefJSON out = true := by
  cases content with
  | obj f =>
    obtain ⟨g, hg⟩ := resolveReferences_obj_shape fuel fs st c f resolved hr
    subst hg
    have hnog : noRefFields g = true := ihP st c f (.obj g) hclean hr
    unfold mergeSchemaWithRef at hm
    have hd : pyDictOf (JSON.obj g) = .ok g := rfl
    rw [hd] at hm
    injection hm with h2
    subst h2
    rw [mergeOverlay_singleton_ref]
    exact hnog
  | arr items =>
    cases fuel with
    | zero => cases hr
    | succ fuel2 =>
      have hres : resolved = JSON.arr items := by
        have : resolveReferences (fuel2 + 1) fs st c (JSON.arr items) = .ok (JSON.arr items) := rfl
        rw [this] at hr
        injection hr with h2
        exact h2.symm
      subst hres
      unfold mergeSchemaWithRef at hm
      cases hd : pyDictOf (JSON.arr items) with
      | error e => rw [hd] at hm; cases hm
      | ok base =>
        rw [hd] at hm
        injection hm with h2
        subst h2
        have hbase : base = [] := pyDictOf_clean_arr items base hclean hd
        subst hbase
        rw [mergeOverlay_singleton_ref]
        rfl
  | str s =>
    cases fuel with
    | zero => cases hr
    | succ fuel2 =>
      have hres : resolved = JSON.str s := by
        have : resolveReferences (fuel2 + 1) fs st c (JSON.str s) = .ok (JSON.str s) := rfl
        rw [this] at hr
        injection hr with h2
        exact h2.symm
      subst hres
      cases hm
  | num n =>
    cases fuel with
    | zero => cases hr
    | succ fuel2 =>
      have hres : resolved = JSON.num n := by
        have : resolveReferences (fuel2 + 1) fs st c (JSON.num n) = .ok (JSON.num n) := rfl
        rw [this] at hr
        injection hr with h2
        exact h2.symm
      subst hres
      cases hm
  | bool b =>
    cases fuel with
    | zero => cases hr
    | succ fuel2 =>
      have hres : resolved = JSON.bool b := by
        have : resolveReferences (fuel2 + 1) fs st c (JSON.bool b) = .ok (JSON.bool b) := rfl
        rw [this] at hr
        injection hr with h2
        exact h2.symm
      subst hres
      cases hm
  | null =>
    cases fuel with
    | zero => cases hr
    | succ fuel2 =>
      have hres : resolved = JSON.null := by
        have : resolveReferences (fuel2 + 1) fs st c JSON.null = .ok JSON.null := rfl
        rw [this] at hr
        injection hr with h2
        exact h2.symm
      subst hres
      cases hm

theorem resolveRefWith_clean_noRef (fuel : Nat) (fs : FS)
    (hfs : ∀ p d, (p, d) ∈ fs → cleanJSON d = true)
    (ihP : ∀ (stack : List String) (cur : Option String) (f : List (String × JSON)) (o : JSON),
      cleanJSON (.obj f) = true →
      resolveReferences fuel fs stack cur (.obj f) = .ok o → noRefJSON o = true)
    (stack : List String) (cur : Option String) (v : JSON) (refPath : String) (out : JSON)
    (h : resolveRefWith (fun st c w => resolveReferences fuel fs st c w)
      fs stack cur [(REF, v)] refPath = .ok out) :
    noRefJSON out = true := by
  simp only [resolveRefWith] at h
  by_cases hc : stack.contains (resolutionKey cur refPath) = true
  · rw [if_pos hc] at h; cases h
  · rw [if_neg hc] at h
    cases hp : (parseRef refPath).1 with
    | some filePart =>
      rw [hp] at h
      dsimp only at h
      cases hl : loadReferencedFile fs filePart cur with
      | error e => rw [hl] at h; cases h
      | ok content0 =>
        rw [hl] at h
        dsimp only at h
        have hcc0 : cleanJSON content0 = true := by
          unfold loadReferencedFile at hl
          cases hload : loadFS fs (refTargetPath cur filePart) with
          | none => rw [hload] at hl; cases hl
          | some d =>
            rw [hload] at hl
            injection hl with h2
            subst h2
            exact hfs _ _ (loadFS_mem fs _ _ hload)
        cases hpe :
            (match (parseRef refPath).2 with
             | some ptr => resolveJsonPointer content0 ptr refPath
             | none => .ok content0) with
        | error e => rw [hpe] at h; cases h
        | ok content =>
          rw [hpe] at h
          dsimp only at h
          have hcct : cleanJSON content = true := by
            cases hp2 : (parseRef refPath).2 with
            | some ptr =>
              rw [hp2] at hpe
              exact resolveJsonPointer_clean content0 ptr refPath content hcc0 hpe
            | none =>
              rw [hp2] at hpe
              injection hpe with h2
              subst h2
              exact hcc0
          cases hr : resolveReferences fuel fs (stack ++ [resolutionKey cur refPath])
              (some (refTargetPath cur filePart)) content with
          | error e => rw [hr] at h; cases h
          | ok resolved =>
            rw [hr] at h
            dsimp only at h
            exact merge_resolved_noRef fuel fs _ _ content resolved out v ihP hcct hr h
    | none =>
      rw [hp] at h
      dsimp only at h
      cases hp2 : (parseRef refPath).2 with
      | none => rw [hp2] at h; cases h
      | some ptr =>
        rw [hp2] at h
        dsimp only at h
        cases cur with
        | none => cases h
        | some cf =>
          dsimp only at h
          cases hl : loadFS fs cf with
          | none => rw [hl] at h; cases h
          | some root =>
            rw [hl] at h
            dsimp only at h
            have hcr : cleanJSON root = true := hfs _ _ (loadFS_mem fs _ _ hl)
            cases hj : resolveJsonPointer root ptr refPath with
            | error e => rw [hj] at h; cases h
            | ok content =>
              rw [hj] at h
              dsimp only at h
              have hcct : cleanJSON content = true :=
                resolveJsonPointer_clean root ptr refPath content hcr hj
              cases hr : resolveReferences fuel fs (stack ++ [resolutionKey (some cf) refPath])
                  (some cf) content with
              | error e => rw [hr] at h; cases h
              | ok resolved =>
                rw [hr] at h
                dsimp only at h
                exact merge_resolved_noRef fuel fs _ _ content resolved out v ihP hcct hr h

theorem resolveReferences_clean_noRef (fs : FS)
    (hfs : ∀ p d, (p, d) ∈ fs → cleanJSON d = true) :
    ∀ (fuel : Nat) (stack : List String) (cur : Option String)
      (fields : List (String × JSON)) (out : JSON),
      cleanJSON (.obj fields) = true →
      resolveReferences fuel fs stack cur (.obj fields) = .ok out →
      noRefJSON out = true := by
  intro fuel
  induction fuel with
  | zero => intro _ _ _ _ _ h; cases h
  | succ fuel ih =>
    intro stack cur fields out hc hres
    cases hg : getField fields REF with
    | none =>
      rw [resolveReferences_succ_obj_noref fuel fs stack cur fields hg] at hres
      cases hf : resolveFieldsWith (fun v => resolveReferences fuel fs stack cur v) fields with
      | error e => rw [hf] at hres; cases hres
      | ok fields2 =>
        rw [hf] at hres
        injection hres with h2
        subst h2
        have hkeys : hasField fields REF = false := by
          by_cases hh : hasField fields REF = true
          · obtain ⟨w, hw⟩ := (hasField_iff_getField fields REF).mp hh
            rw [hw] at hg
            cases hg
          · exact Bool.not_eq_true _ ▸ hh
        have hcf : cleanFields fields = true := by
          have hc2 : ((!(hasField fields REF) || fields.length == 1) && cleanFields fields) = true := hc
          simp only [Bool.and_eq_true] at hc2
          exact hc2.2
        show noRefFields fields2 = true
        exact resolveFieldsWith_noRef
          (fun f o hcf2 hro => ih stack cur f o hcf2 hro)
          fields fields2 hkeys hcf hf
    | some refVal =>
      cases refVal with
      | str refPath =>
        have hsingle : fields = [(REF, JSON.str refPath)] :=
          clean_ref_singleton fields (JSON.str refPath) hc hg
        rw [resolveReferences_succ_obj_ref fuel fs stack cur fields refPath hg] at hres
        rw [hsingle] at hres
        exact resolveRefWith_clean_noRef fuel fs hfs
          (fun st c f o hcf hro => ih st c f o hcf hro)
          stack cur (JSON.str refPath) refPath out hres
      | num n => simp only [resolveReferences, hg] at hres; cases hres
      | bool b => simp only [resolveReferences, hg] at hres; cases hres
      | null => simp only [resolveReferences, hg] at hres; cases hres
      | arr its => simp only [resolveReferences, hg] at hres; cases hres
      | obj f2 => simp only [resolveReferences, hg] at hres; cases hres

theorem resolveFile_clean_noRef (fuel : Nat) (fs : FS) (root : String)
    (rootFields : List (String × JSON)) (out : JSON)
    (hfs : ∀ p d, (p, d) ∈ fs → cleanJSON d = true)
    (hroot : loadFS fs root = some (.obj rootFields))
    (hres : resolveFile fuel fs root = .ok out) :
    noRefJSON out = true := by
  unfold resolveFile at hres
  rw [hroot] at hres
  dsimp only at hres
  cases hb : resolveReferences fuel fs [] (some root) (JSON.obj rootFields) with
  | error e =>
    rw [hb] at hres
    cases e with
    | circular chain => cases hres
    | outOfFuel => cases hres
    | valueErr m => cases hres
    | keyErr m => cases hres
    | typeErr m => cases hres
    | fileNotFoundErr m => cases hres
    | pydanticValidation m => cases hres
    | resolution rp cause => cases hres
    | validation errs => cases hres
    | variantExtraction m => cases hres
  | ok v =>
    rw [hb] at hres
    injection hres with h2
    subst h2
    exact resolveReferences_clean_noRef fs hfs fuel [] (some root) rootFields v
      (hfs root (JSON.obj rootFields) (loadFS_mem fs root _ hroot)) hb

/-- Claim C10: a `$ref` value of exactly `#` (empty file part, empty
pointer) always fails with `ReferenceResolutionError` carrying the cause
"Invalid local reference: missing JSON pointer", whether or not a
current-file context is supplied; it is never treated as a
whole-document self-reference. -/
theorem C10_theorem (fuel : Nat) (fs : FS) (cur : Option String)
    (fields : List (String × JSON))
    (href : getField fields REF = some (.str "#")) :
    resolveReferences (fuel + 1) fs [] cur (.obj fields) =
      .error (.resolution ("#") (.valueErr "Invalid local reference: missing JSON pointer")) := by
  rw [resolveReferences_succ_obj_ref fuel fs [] cur fields ("#") href]
  rfl

/-- Claim C10, witness: the concrete evaluation with and without a
current-file context. -/
theorem C10_witness :
    resolveReferences 5 [] [] (some ("f.json")) (JSON.obj [(REF, JSON.str "#")]) =
      .error (.resolution ("#") (.valueErr "Invalid local reference: missing JSON pointer")) ∧
    resolveReferences 5 [] [] none (JSON.obj [(REF, JSON.str "#")]) =
      .error (.resolution ("#") (.valueErr "Invalid local reference: missing JSON pointer")) :=
  ⟨C10_theorem 4 [] (some ("f.json")) [(REF, JSON.str "#")] rfl,
   C10_theorem 4 [] none [(REF, JSON.str "#")] rfl⟩

/-- Claim C4: the cycle-detection key is the raw `$ref` string when the
reference has a file part and `current_file ++ ":" ++ ref` for a local
pointer; a key already on the resolution stack fails with
`CircularReferenceError` whose chain is the stack followed by the
offending key; and self- or mutually-referential chains (local or
external) terminate with that error at every sufficiently large fuel
rather than recursing forever. -/
theorem C4_theorem :
    (∀ (fuel : Nat) (fs : FS) (stack : List String) (cur : Option String)
       (fields : List (String × JSON)) (refPath : String),
       getField fields REF = some (.str refPath) →
       resolutionKey cur refPath ∈ stack →
       resolveReferences (fuel + 1) fs stack cur (.obj fields) =
         .error (.circular (stack ++ [resolutionKey cur refPath]))) ∧
    (∀ (refPath : String) (cur : Option String) (filePart : String),
       (parseRef refPath).1 = some filePart → resolutionKey cur refPath = refPath) ∧
    (∀ (refPath cf : String),
       (parseRef refPath).1 = none →
       resolutionKey (some cf) refPath = cf ++ ":" ++ refPath) ∧
    (∀ fuel : Nat, 10 ≤ fuel →
       resolveFile fuel C4fsLocal ("spec.json") =
         .error (.circular ["spec.json:#/defs/a", "spec.json:#/defs/b", "spec.json:#/defs/a"])) ∧
    (∀ fuel : Nat, 10 ≤ fuel →
       resolveFile fuel C4fsExternal ("a.json") =
         .error (.circular ["b.json", "a.json", "b.json"])) := by
  refine ⟨?_, ?_, ?_, ?_, ?_⟩
  · intro fuel fs stack cur fields refPath href hmem
    rw [resolveReferences_succ_obj_ref fuel fs stack cur fields refPath href]
    simp only [resolveRefWith]
    rw [if_pos (List.elem_iff.mpr hmem)]
  · intro refPath cur filePart hp
    unfold resolutionKey
    rw [hp]
  · intro refPath cf hp
    unfold resolutionKey
    rw [hp]
    rfl
  · intro fuel hfuel
    exact resolveFile_mono_le 10 fuel hfuel C4fsLocal ("spec.json") _ rfl (by intro hh; cases hh)
  · intro fuel hfuel
    exact resolveFile_mono_le 10 fuel hfuel C4fsExternal ("a.json") _ rfl (by intro hh; cases hh)

/-- Claim C4, witness: the stack-hit theorem applied at a concrete
reference with its key already on the stack, and the key equations at
concrete references. -/
theorem C4_witness :
    resolveReferences 5 [] ["x.json"] none (JSON.obj [(REF, JSON.str "x.json")]) =
      .error (.circular ["x.json", "x.json"]) ∧
    resolutionKey (some ("spec.json")) ("other.json#/a") = "other.json#/a" ∧
    resolutionKey (some ("spec.json")) ("#/defs/a") = "spec.json:#/defs/a" := by
  refine ⟨?_, ?_, ?_⟩
  · have := C4_theorem.1 4 [] ["x.json"] none [(REF, JSON.str "x.json")] ("x.json") rfl
      (by decide)
    exact this
  · exact C4_theorem.2.1 ("other.json#/a") (some ("spec.json")) ("other.json") rfl
  · exact C4_theorem.2.2.1 ("#/defs/a") ("spec.json") rfl

/-- Claim C1, counterexample: resolution of `root.json` succeeds, yet
the returned tree still contains a `$ref` key — the sibling value
`extra` is copied verbatim, unresolved, by `_merge_schema_with_ref`. -/
theorem C1_counterexample :
    resolveFile 10 C1fs ("root.json") =
      .ok (JSON.obj [("a", JSON.obj [("t", JSON.str "x")]),
                     ("extra", JSON.obj [(REF, JSON.str "#/a")])]) ∧
    getField [("a", JSON.obj [("t", JSON.str "x")]),
              ("extra", JSON.obj [(REF, JSON.str "#/a")])] ("extra") =
      some (JSON.obj [(REF, JSON.str "#/a")]) ∧
    noRefJSON (JSON.obj [("a", JSON.obj [("t", JSON.str "x")]),
                         ("extra", JSON.obj [(REF, JSON.str "#/a")])]) = false :=
  ⟨rfl, rfl, rfl⟩

/-- Claim C1 (amended): when every document in the store is such that
each mapping carrying `$ref` has no sibling keys and no sequence occurs
directly inside a sequence, and the root document is a mapping, a
successful `resolve_file` returns a tree with no `$ref` key anywhere. -/
theorem C1_theorem (fuel : Nat) (fs : FS) (root : String)
    (rootFields : List (String × JSON)) (out : JSON)
    (hfs : ∀ p d, (p, d) ∈ fs → cleanJSON d = true)
    (hroot : loadFS fs root = some (.obj rootFields))
    (hres : resolveFile fuel fs root = .ok out) :
    noRefJSON out = true :=
  resolveFile_clean_noRef fuel fs root rootFields out hfs hroot hres

/-- Claim C1, witness: a concrete clean store with a reference chain,
resolved and checked `$ref`-free. -/
theorem C1_witness :
    noRefJSON (JSON.obj [("x", JSON.obj [("t", JSON.str "v")])]) = true := by
  have h := C1_theorem 10
    [("a.json", JSON.obj [("x", JSON.obj [(REF, JSON.str "b.json")])]),
     ("b.json", JSON.obj [("t", JSON.str "v")])]
    ("a.json")
    [("x", JSON.obj [(REF, JSON.str "b.json")])]
    (JSON.obj [("x", JSON.obj [("t", JSON.str "v")])])
    (by
      intro p d hm
      simp only [List.mem_cons, List.not_mem_nil, or_false, Prod.mk.injEq] at hm
      rcases hm with ⟨h1, rfl⟩ | ⟨h1, rfl⟩ <;> rfl)
    rfl
    rfl
  exact h

/-- Claim C3 (amended): a missing root file makes `resolve_file` fail
with `ReferenceResolutionError` wrapping a `FileNotFoundError` cause
(not with a bare file-not-found kind); any other resolution failure is
wrapped into `ReferenceResolutionError`; a `CircularReferenceError`
propagates unchanged; a success passes through. -/
theorem C3_theorem :
    (∀ (fuel : Nat) (fs : FS) (path : String),
       loadFS fs path = none →
       resolveFile fuel fs path =
         .error (.resolution path (.fileNotFoundErr ("File not found: " ++ path)))) ∧
    (∀ (fuel : Nat) (fs : FS) (path : String) (doc : JSON) (e : Err),
       loadFS fs path = some doc →
       resolveReferences fuel fs [] (some path) doc = .error e →
       (∀ c, e ≠ .circular c) → e ≠ .outOfFuel →
       resolveFile fuel fs path = .error (.resolution path e)) ∧
    (∀ (fuel : Nat) (fs : FS) (path : String) (doc : JSON) (chain : List String),
       loadFS fs path = some doc →
       resolveReferences fuel fs [] (some path) doc = .error (.circular chain) →
       resolveFile fuel fs path = .error (.circular chain)) ∧
    (∀ (fuel : Nat) (fs : FS) (path : String) (doc v : JSON),
       loadFS fs path = some doc →
       resolveReferences fuel fs [] (some path) doc = .ok v →
       resolveFile fuel fs path = .ok v) := by
  refine ⟨?_, ?_, ?_, ?_⟩
  · intro fuel fs path h
    unfold resolveFile
    rw [h]
  · intro fuel fs path doc e hload hres hnc hnf
    unfold resolveFile
    rw [hload]
    dsimp only
    rw [hres]
    cases e with
    | circular chain => exact absurd rfl (hnc chain)
    | outOfFuel => exact absurd rfl hnf
    | valueErr m => rfl
    | keyErr m => rfl
    | typeErr m => rfl
    | fileNotFoundErr m => rfl
    | pydanticValidation m => rfl
    | resolution rp cause => rfl
    | validation errs => rfl
    | variantExtraction m => rfl
  · intro fuel fs path doc chain hload hres
    unfold resolveFile
    rw [hload]
    dsimp only
    rw [hres]
  · intro fuel fs path doc v hload hres
    unfold resolveFile
    rw [hload]
    dsimp only
    rw [hres]

/-- Claim C3, counterexample: on a missing path the raised kind is a
`ReferenceResolutionError` (wrapping the `FileNotFoundError` as its
cause), not a file-not-found kind distinguishable from it. -/
theorem C3_counterexample :
    resolveFile 5 ([] : FS) ("missing.json") =
      .error (.resolution ("missing.json")
        (.fileNotFoundErr ("File not found: missing.json"))) := rfl

/-- Claim C3, witness: a failing nested reference is wrapped (a
`ReferenceResolutionError` whose cause is the inner resolution error). -/
theorem C3_witness :
    resolveFile 5 [("root.json", JSON.obj [(REF, JSON.str "gone.json")])] ("root.json") =
      .error (.resolution ("root.json") (.resolution ("gone.json")
        (.fileNotFoundErr ("Referenced file not found: gone.json")))) := by
  exact C3_theorem.2.1 5 [("root.json", JSON.obj [(REF, JSON.str "gone.json")])]
    ("root.json") (JSON.obj [(REF, JSON.str "gone.json")])
    (.resolution ("gone.json") (.fileNotFoundErr ("Referenced file not found: gone.json")))
    rfl rfl (by intro c h; cases h) (by intro h; cases h)

/-- Claim C8, counterexample: the undecoded literal-tilde pointer
`/a~b` also reaches the key `a~b`, because `~` not followed by `0` or
`1` is left as-is by the sequential substitutions — the claim's
assertion that the unescaped tilde form does not reach the key fails. -/
theorem C8_counterexample :
    resolveJsonPointer C8doc ("/a~b") ("ref") = .ok (JSON.obj [("y", JSON.num 2)]) := rfl

/-- Claim C8 (amended): `~1` decodes to `/` and `~0` to `~`, so
`/a~1b` and `/a~0b` reach the keys `a/b` and `a~b`; the unescaped
literal slash form `/a/b` does not reach `a/b` (it is read as two
segments and fails on the absent key `a`); but the unescaped literal
tilde form `/a~b` does reach `a~b`. -/
theorem C8_theorem :
    resolveJsonPointer C8doc ("/a~1b") ("ref") = .ok (JSON.obj [("x", JSON.num 1)]) ∧
    resolveJsonPointer C8doc ("/a~0b") ("ref") = .ok (JSON.obj [("y", JSON.num 2)]) ∧
    resolveJsonPointer C8doc ("/a/b") ("ref") =
      .error (.resolution ("ref") (.keyErr
        ("JSON pointer '/a/b' not found: key 'a' does not exist"))) ∧
    resolveJsonPointer C8doc ("/a~b") ("ref") = .ok (JSON.obj [("y", JSON.num 2)]) :=
  ⟨rfl, rfl, rfl, rfl⟩

/-- Claim C2 (amended): `apply_conditional_logic` returns the document
unchanged when there is no `oneOf` key, when its value is not a
sequence, and also (by Python truthiness) when it is the empty
sequence; on a non-empty branch list it raises `ValidationError` with
the supported-variants message when zero branches match, raises the
mutual-exclusivity `ValidationError` when more than one branch matches,
and on exactly one match returns the merged document with the `oneOf`
key removed. -/
theorem C2_theorem :
    (∀ (fuel : Nat) (fs : FS) (fields : List (String × JSON)) (variant : DatabaseVariantSpec),
       (∀ l, getField fields ONEOF ≠ some (.arr l)) →
       applyConditionalLogic fuel fs (.obj fields) variant = .ok (.obj fields)) ∧
    (∀ (fuel : Nat) (fs : FS) (fields : List (String × JSON)) (variant : DatabaseVariantSpec),
       getField fields ONEOF = some (.arr []) →
       applyConditionalLogic fuel fs (.obj fields) variant = .ok (.obj fields)) ∧
    (∀ (fuel : Nat) (fs : FS) (fields : List (String × JSON)) (variant : DatabaseVariantSpec)
       (bs : List JSON),
       getField fields ONEOF = some (.arr bs) → bs ≠ [] →
       bs.filter (fun c => matchesVariantCondition c variant) = [] →
       applyConditionalLogic fuel fs (.obj fields) variant =
         .error (.validation
           ["No matching oneOf condition found for " ++ variant.engine ++ " " ++
             variant.version ++ ". Supported variants: " ++
             String.intercalate (", ") (getSupportedVariants (.obj fields))])) ∧
    (∀ (fuel : Nat) (fs : FS) (fields : List (String × JSON)) (variant : DatabaseVariantSpec)
       (bs : List JSON) (c1 c2 : JSON) (crest : List JSON),
       getField fields ONEOF = some (.arr bs) →
       bs.filter (fun c => matchesVariantCondition c variant) = c1 :: c2 :: crest →
       applyConditionalLogic fuel fs (.obj fields) variant =
         .error (.validation
           ["Multiple matching conditions found for " ++ variant.engine ++ " " ++
             variant.version ++ ". oneOf conditions should be mutually exclusive."])) ∧
    (∀ (fuel : Nat) (fs : FS) (fields : List (String × JSON)) (variant : DatabaseVariantSpec)
       (bs : List JSON) (cf merged : List (String × JSON)),
       getField fields ONEOF = some (.arr bs) →
       bs.filter (fun c => matchesVariantCondition c variant) = [.obj cf] →
       mergeConditionSchema fuel fs fields cf = .ok merged →
       applyConditionalLogic fuel fs (.obj fields) variant = .ok (.obj (delField merged ONEOF)) ∧
       getField (delField merged ONEOF) ONEOF = none) := by
  refine ⟨?_, ?_, ?_, ?_, ?_⟩
  · intro fuel fs fields variant h
    unfold applyConditionalLogic
    dsimp only
    cases hg : getField fields ONEOF with
    | none => rfl
    | some v =>
      cases v with
      | arr l => exact absurd hg (h l)
      | str s => rfl
      | num n => rfl
      | bool b => rfl
      | null => rfl
      | obj f => rfl
  · intro fuel fs fields variant h
    unfold applyConditionalLogic
    dsimp only
    rw [h]
    rfl
  · intro fuel fs fields variant bs hg hne hfilter
    have hie : bs.isEmpty = false := by
      cases bs with
      | nil => exact absurd rfl hne
      | cons x r => rfl
    unfold applyConditionalLogic
    simp only [hg, hie, Bool.false_eq_true, if_false, hfilter]
  · intro fuel fs fields variant bs c1 c2 crest hg hfilter
    have hne : bs ≠ [] := by
      intro hh
      subst hh
      simp at hfilter
    have hie : bs.isEmpty = false := by
      cases bs with
      | nil => exact absurd rfl hne
      | cons x r => rfl
    unfold applyConditionalLogic
    simp only [hg, hie, Bool.false_eq_true, if_false, hfilter]
  · intro fuel fs fields variant bs cf merged hg hfilter hmerge
    constructor
    · have hne : bs ≠ [] := by
        intro hh
        subst hh
        simp at hfilter
      have hie : bs.isEmpty = false := by
        cases bs with
        | nil => exact absurd rfl hne
        | cons x r => rfl
      unfold applyConditionalLogic
      simp only [hg, hie, Bool.false_eq_true, if_false, hfilter, hmerge]
    · rw [getField_delField]
      rw [if_pos rfl]

/-- Claim C2, counterexample: with `oneOf` present as the empty
sequence, zero branches match the variant, yet the document is returned
unchanged instead of raising the zero-match `ValidationError` — Python's
`if not oneof_data` treats the empty list as absent. -/
theorem C2_counterexample :
    getField [("oneOf", JSON.arr [])] ONEOF = some (JSON.arr []) ∧
    ([] : List JSON).filter (fun c => matchesVariantCondition c pgVariant) = [] ∧
    applyConditionalLogic 5 [] (JSON.obj [("oneOf", JSON.arr [])]) pgVariant =
      .ok (JSON.obj [("oneOf", JSON.arr [])]) :=
  ⟨rfl, rfl, rfl⟩

/-- Claim C2, witness: the zero-match error carries the enumerated
supported variants, and a no-`oneOf` document passes through
unchanged. -/
theorem C2_witness :
    applyConditionalLogic 5 [] (JSON.obj [("oneOf", JSON.arr [C2branch])]) pgVariant =
      .error (.validation
        ["No matching oneOf condition found for " ++ pgVariant.engine ++ " " ++
          pgVariant.version ++ ". Supported variants: " ++
          String.intercalate (", ")
            (getSupportedVariants (JSON.obj [("oneOf", JSON.arr [C2branch])]))]) ∧
    applyConditionalLogic 5 [] (JSON.obj [("a", JSON.num 1)]) pgVariant =
      .ok (JSON.obj [("a", JSON.num 1)]) := by
  constructor
  · exact C2_theorem.2.2.1 5 [] [("oneOf", JSON.arr [C2branch])] pgVariant [C2branch]
      rfl (by intro hh; cases hh) rfl
  · exact C2_theorem.1 5 [] [("a", JSON.num 1)] pgVariant (by intro l hh; cases hh)

/-- Claim C5 (amended): an engine or version constraint matches exactly
when the key is absent, the constraint is a bare string equal to the
field, a mapping whose `const` is that exact string, a mapping without
a `const` key, or a value that is neither a mapping nor a string (the
source's trailing `return True` makes the last two shapes match as
well); only a differing bare string, or a mapping whose `const` is not
the matching string, fail to match. -/
theorem C5_theorem :
    (∀ (props : List (String × JSON)) (engine : String),
       engineMatches props engine = true ↔
         (getField props "engine" = none ∨
          getField props "engine" = some (.str engine) ∨
          (∃ cf, getField props "engine" = some (.obj cf) ∧
            getField cf "const" = some (.str engine)) ∨
          (∃ cf, getField props "engine" = some (.obj cf) ∧ getField cf "const" = none) ∨
          (∃ c, getField props "engine" = some c ∧
            (∀ f, c ≠ .obj f) ∧ (∀ s, c ≠ .str s)))) ∧
    (∀ (props : List (String × JSON)) (version : String),
       versionMatches props version = true ↔
         (getField props "version" = none ∨
          getField props "version" = some (.str version) ∨
          (∃ cf, getField props "version" = some (.obj cf) ∧
            getField cf "const" = some (.str version)) ∨
          (∃ cf, getField props "version" = some (.obj cf) ∧ getField cf "const" = none) ∨
          (∃ c, getField props "version" = some c ∧
            (∀ f, c ≠ .obj f) ∧ (∀ s, c ≠ .str s)))) := by
  constructor
  · intro props engine
    unfold engineMatches
    cases hg : getField props "engine" with
    | none =>
      constructor
      · intro _
        exact Or.inl rfl
      · intro _
        rfl
    | some c =>
      cases c with
      | obj cf =>
        dsimp only
        cases hc : getField cf "const" with
        | none =>
          constructor
          · intro _
            exact Or.inr (Or.inr (Or.inr (Or.inl ⟨cf, rfl, hc⟩)))
          · intro _
            rfl
        | some constVal =>
          cases constVal with
          | str s =>
            constructor
            · intro h
              have hs : s = engine := eq_of_beq h
              subst hs
              exact Or.inr (Or.inr (Or.inl ⟨cf, rfl, hc⟩))
            · intro h
              rcases h with h | h | ⟨cf2, h1, h2⟩ | ⟨cf2, h1, h2⟩ | ⟨c2, h1, hno, hns⟩
              · cases h
              · injection h with h2
                cases h2
              · injection h1 with h3
                injection h3 with h4
                subst h4
                rw [hc] at h2
                injection h2 with h5
                injection h5 with h6
                simp [h6]
              · injection h1 with h3
                injection h3 with h4
                subst h4
                rw [hc] at h2
                exact Option.noConfusion h2
              · injection h1 with h2
                exact absurd h2.symm (hno cf)
          | num n =>
            constructor
            · intro h
              cases h
            · intro h
              rcases h with h | h | ⟨cf2, h1, h2⟩ | ⟨cf2, h1, h2⟩ | ⟨c2, h1, hno, hns⟩
              · cases h
              · injection h with h2
                cases h2
              · injection h1 with h3
                injection h3 with h4
                subst h4
                rw [hc] at h2
                injection h2 with h5
                cases h5
              · injection h1 with h3
                injection h3 with h4
                subst h4
                rw [hc] at h2
                exact Option.noConfusion h2
              · injection h1 with h2
                exact absurd h2.symm (hno cf)
          | bool b =>
            constructor
            · intro h
              cases h
            · intro h
              rcases h with h | h | ⟨cf2, h1, h2⟩ | ⟨cf2, h1, h2⟩ | ⟨c2, h1, hno, hns⟩
              · cases h
              · injection h with h2
                cases h2
              · injection h1 with h3
                injection h3 with h4
                subst h4
                rw [hc] at h2
                injection h2 with h5
                cases h5
              · injection h1 with h3
                injection h3 with h4
                subst h4
                rw [hc] at h2
                exact Option.noConfusion h2
              · injection h1 with h2
                exact absurd h2.symm (hno cf)
          | null =>
            constructor
            · intro h
              cases h
            · intro h
              rcases h with h | h | ⟨cf2, h1, h2⟩ | ⟨cf2, h1, h2⟩ | ⟨c2, h1, hno, hns⟩
              · cases h
              · injection h with h2
                cases h2
              · injection h1 with h3
                injection h3 with h4
                subst h4
                rw [hc] at h2
                injection h2 with h5
                cases h5
              · injection h1 with h3
                injection h3 with h4
                subst h4
                rw [hc] at h2
                exact Option.noConfusion h2
              · injection h1 with h2
                exact absurd h2.symm (hno cf)
          | arr its =>
            constructor
            · intro h
              cases h
            · intro h
              rcases h with h | h | ⟨cf2, h1, h2⟩ | ⟨cf2, h1, h2⟩ | ⟨c2, h1, hno, hns⟩
              · cases h
              · injection h with h2
                cases h2
              · injection h1 with h3
                injection h3 with h4
                subst h4
                rw [hc] at h2
                injection h2 with h5
                cases h5
              · injection h1 with h3
                injection h3 with h4
                subst h4
                rw [hc] at h2
                exact Option.noConfusion h2
              · injection h1 with h2
                exact absurd h2.symm (hno cf)
          | obj cf2 =>
            constructor
            · intro h
              cases h
            · intro h
              rcases h with h | h | ⟨cf3, h1, h2⟩ | ⟨cf3, h1, h2⟩ | ⟨c2, h1, hno, hns⟩
              · cases h
              · injection h with h2
                cases h2
              · injection h1 with h3
                injection h3 with h4
                subst h4
                rw [hc] at h2
                injection h2 with h5
                cases h5
              · injection h1 with h3
                injection h3 with h4
                subst h4
                rw [hc] at h2
                exact Option.noConfusion h2
              · injection h1 with h2
                exact absurd h2.symm (hno cf)
      | str s =>
        constructor
        · intro h
          have hs : s = engine := eq_of_beq h
          subst hs
          exact Or.inr (Or.inl rfl)
        · intro h
          rcases h with h | h | ⟨cf2, h1, h2⟩ | ⟨cf2, h1, h2⟩ | ⟨c2, h1, hno, hns⟩
          · cases h
          · injection h with h2
            injection h2 with h3
            subst h3
            exact beq_self_eq_true s
          · injection h1 with h2
            cases h2
          · injection h1 with h2
            cases h2
          · injection h1 with h2
            exact absurd h2.symm (hns s)
      | num n =>
        constructor
        · intro _
          refine Or.inr (Or.inr (Or.inr (Or.inr ⟨.num n, rfl, ?_, ?_⟩)))
          · intro f hh
            cases hh
          · intro s2 hh
            cases hh
        · intro _
          rfl
      | bool b =>
        constructor
        · intro _
          refine Or.inr (Or.inr (Or.inr (Or.inr ⟨.bool b, rfl, ?_, ?_⟩)))
          · intro f hh
            cases hh
          · intro s2 hh
            cases hh
        · intro _
          rfl
      | null =>
        constructor
        · intro _
          refine Or.inr (Or.inr (Or.inr (Or.inr ⟨.null, rfl, ?_, ?_⟩)))
          · intro f hh
            cases hh
          · intro s2 hh
            cases hh
        · intro _
          rfl
      | arr its =>
        constructor
        · intro _
          refine Or.inr (Or.inr (Or.inr (Or.inr ⟨.arr its, rfl, ?_, ?_⟩)))
          · intro f hh
            cases hh
          · intro s2 hh
            cases hh
        · intro _
          rfl
  · intro props version
    unfold versionMatches
    cases hg : getField props "version" with
    | none =>
      constructor
      · intro _
        exact Or.inl rfl
      · intro _
        rfl
    | some c =>
      cases c with
      | obj cf =>
        dsimp only
        cases hc : getField cf "const" with
        | none =>
          constructor
          · intro _
            exact Or.inr (Or.inr (Or.inr (Or.inl ⟨cf, rfl, hc⟩)))
          · intro _
            rfl
        | some constVal =>
          cases constVal with
          | str s =>
            constructor
            · intro h
              have hs : s = version := eq_of_beq h
              subst hs
              exact Or.inr (Or.inr (Or.inl ⟨cf, rfl, hc⟩))
            · intro h
              rcases h with h | h | ⟨cf2, h1, h2⟩ | ⟨cf2, h1, h2⟩ | ⟨c2, h1, hno, hns⟩
              · cases h
              · injection h with h2
                cases h2
              · injection h1 with h3
                injection h3 with h4
                subst h4
                rw [hc] at h2
                injection h2 with h5
                injection h5 with h6
                simp [h6]
              · injection h1 with h3
                injection h3 with h4
                subst h4
                rw [hc] at h2
                exact Option.noConfusion h2
              · injection h1 with h2
                exact absurd h2.symm (hno cf)
          | num n =>
            constructor
            · intro h
              cases h
            · intro h
              rcases h with h | h | ⟨cf2, h1, h2⟩ | ⟨cf2, h1, h2⟩ | ⟨c2, h1, hno, hns⟩
              · cases h
              · injection h with h2
                cases h2
              · injection h1 with h3
                injection h3 with h4
                subst h4
                rw [hc] at h2
                injection h2 with h5
                cases h5
              · injection h1 with h3
                injection h3 with h4
                subst h4
                rw [hc] at h2
                exact Option.noConfusion h2
              · injection h1 with h2
                exact absurd h2.symm (hno cf)
          | bool b =>
            constructor
            · intro h
              cases h
            · intro h
              rcases h with h | h | ⟨cf2, h1, h2⟩ | ⟨cf2, h1, h2⟩ | ⟨c2, h1, hno, hns⟩
              · cases h
              · injection h with h2
                cases h2
              · injection h1 with h3
                injection h3 with h4
                subst h4
                rw [hc] at h2
                injection h2 with h5
                cases h5
              · injection h1 with h3
                injection h3 with h4
                subst h4
                rw [hc] at h2
                exact Option.noConfusion h2
              · injection h1 with h2
                exact absurd h2.symm (hno cf)
          | null =>
            constructor
            · intro h
              cases h
            · intro h
              rcases h with h | h | ⟨cf2, h1, h2⟩ | ⟨cf2, h1, h2⟩ | ⟨c2, h1, hno, hns⟩
              · cases h
              · injection h with h2
                cases h2
              · injection h1 with h3
                injection h3 with h4
                subst h4
                rw [hc] at h2
                injection h2 with h5
                cases h5
              · injection h1 with h3
                injection h3 with h4
                subst h4
                rw [hc] at h2
                exact Option.noConfusion h2
              · injection h1 with h2
                exact absurd h2.symm (hno cf)
          | arr its =>
            constructor
            · intro h
              cases h
            · intro h
              rcases h with h | h | ⟨cf2, h1, h2⟩ | ⟨cf2, h1, h2⟩ | ⟨c2, h1, hno, hns⟩
              · cases h
              · injection h with h2
                cases h2
              · injection h1 with h3
                injection h3 with h4
                subst h4
                rw [hc] at h2
                injection h2 with h5
                cases h5
              · injection h1 with h3
                injection h3 with h4
                subst h4
                rw [hc] at h2
                exact Option.noConfusion h2
              · injection h1 with h2
                exact absurd h2.symm (hno cf)
          | obj cf2 =>
            constructor
            · intro h
              cases h
            · intro h
              rcases h with h | h | ⟨cf3, h1, h2⟩ | ⟨cf3, h1, h2⟩ | ⟨c2, h1, hno, hns⟩
              · cases h
              · injection h with h2
                cases h2
              · injection h1 with h3
                injection h3 with h4
                subst h4
                rw [hc] at h2
                injection h2 with h5
                cases h5
              · injection h1 with h3
                injection h3 with h4
                subst h4
                rw [hc] at h2
                exact Option.noConfusion h2
              · injection h1 with h2
                exact absurd h2.symm (hno cf)
      | str s =>
        constructor
        · intro h
          have hs : s = version := eq_of_beq h
          subst hs
          exact Or.inr (Or.inl rfl)
        · intro h
          rcases h with h | h | ⟨cf2, h1, h2⟩ | ⟨cf2, h1, h2⟩ | ⟨c2, h1, hno, hns⟩
          · cases h
          · injection h with h2
            injection h2 with h3
            subst h3
            exact beq_self_eq_true s
          · injection h1 with h2
            cases h2
          · injection h1 with h2
            cases h2
          · injection h1 with h2
            exact absurd h2.symm (hns s)
      | num n =>
        constructor
        · intro _
          refine Or.inr (Or.inr (Or.inr (Or.inr ⟨.num n, rfl, ?_, ?_⟩)))
          · intro f hh
            cases hh
          · intro s2 hh
            cases hh
        · intro _
          rfl
      | bool b =>
        constructor
        · intro _
          refine Or.inr (Or.inr (Or.inr (Or.inr ⟨.bool b, rfl, ?_, ?_⟩)))
          · intro f hh
            cases hh
          · intro s2 hh
            cases hh
        · intro _
          rfl
      | null =>
        constructor
        · intro _
          refine Or.inr (Or.inr (Or.inr (Or.inr ⟨.null, rfl, ?_, ?_⟩)))
          · intro f hh
            cases hh
          · intro s2 hh
            cases hh
        · intro _
          rfl
      | arr its =>
        constructor
        · intro _
          refine Or.inr (Or.inr (Or.inr (Or.inr ⟨.arr its, rfl, ?_, ?_⟩)))
          · intro f hh
            cases hh
          · intro s2 hh
            cases hh
        · intro _
          rfl

/-- Claim C5, counterexample: constraints of other shapes — a number, a
mapping without `const` — do match (the claim says they must not). -/
theorem C5_counterexample :
    engineMatches [("engine", JSON.num 42)] ("postgresql") = true ∧
    engineMatches [("engine", JSON.obj [])] ("postgresql") = true ∧
    versionMatches [("version", JSON.bool true)] ("15.0") = true ∧
    engineMatches [("engine", JSON.obj [("const", JSON.num 7)])] ("postgresql") = false :=
  ⟨rfl, rfl, rfl, rfl⟩

theorem mergeOverlay_not_mem (k : String) :
    ∀ (fields acc : List (String × JSON)), k ∉ fields.map Prod.fst →
      getField (mergeOverlay acc fields) k = getField acc k := by
  intro fields
  induction fields with
  | nil => intro acc _; rfl
  | cons p rest ih =>
    obtain ⟨k0, v0⟩ := p
    intro acc hk
    simp only [List.map_cons, List.mem_cons, not_or] at hk
    have hk0 : k0 ≠ k := fun hh => hk.1 hh.symm
    by_cases hr : k0 = REF
    · simp only [mergeOverlay, if_pos hr]
      exact ih acc (by simpa using hk.2)
    · simp only [mergeOverlay, if_neg hr]
      cases hgv : getField acc k0 with
      | some w =>
        cases w with
        | obj bf =>
          cases v0 with
          | obj vf =>
            rw [ih _ (by simpa using hk.2), getField_setField, if_neg hk0]
          | str s => rw [ih _ (by simpa using hk.2), getField_setField, if_neg hk0]
          | num n => rw [ih _ (by simpa using hk.2), getField_setField, if_neg hk0]
          | bool b => rw [ih _ (by simpa using hk.2), getField_setField, if_neg hk0]
          | null => rw [ih _ (by simpa using hk.2), getField_setField, if_neg hk0]
          | arr its => rw [ih _ (by simpa using hk.2), getField_setField, if_neg hk0]
        | str s => rw [ih _ (by simpa using hk.2), getField_setField, if_neg hk0]
        | num n => rw [ih _ (by simpa using hk.2), getField_setField, if_neg hk0]
        | bool b => rw [ih _ (by simpa using hk.2), getField_setField, if_neg hk0]
        | null => rw [ih _ (by simpa using hk.2), getField_setField, if_neg hk0]
        | arr its => rw [ih _ (by simpa using hk.2), getField_setField, if_neg hk0]
      | none => rw [ih _ (by simpa using hk.2), getField_setField, if_neg hk0]

theorem mergeOverlay_step_ne (acc : List (String × JSON)) (k0 k : String) (v0 : JSON)
    (hne : k0 ≠ k) :
    getField
      (match getField acc k0, v0 with
       | some (.obj bf), .obj vf => setField acc k0 (.obj (mergeShallow bf vf))
       | _, _ => setField acc k0 v0) k = getField acc k := by
  split
  · rw [getField_setField, if_neg hne]
  · rw [getField_setField, if_neg hne]

theorem mergeOverlay_getField :
    ∀ (fields acc : List (String × JSON)) (k : String),
      (fields.map Prod.fst).Nodup → k ≠ REF →
      getField (mergeOverlay acc fields) k =
        (match getField fields k, getField acc k with
         | some (.obj vf), some (.obj bf) => some (.obj (mergeShallow bf vf))
         | some v, _ => some v
         | none, r => r) := by
  intro fields
  induction fields with
  | nil =>
    intro acc k _ _
    rfl
  | cons p rest ih =>
    obtain ⟨k0, v0⟩ := p
    intro acc k hnd hkref
    simp only [List.map_cons, List.nodup_cons] at hnd
    rw [mergeOverlay.eq_def]
    dsimp only
    by_cases hr : k0 = REF
    · rw [if_pos hr]
      rw [ih acc k hnd.2 hkref, getField_cons]
      rw [if_neg (fun hh => hkref (hr ▸ hh).symm)]
    · rw [if_neg hr]
      by_cases hkk : k0 = k
      · subst hkk
        rw [getField_cons, if_pos rfl]
        cases hga : getField acc k0 with
        | none =>
          cases v0 <;>
            (dsimp only
             rw [mergeOverlay_not_mem k0 rest _ hnd.1, getField_setField, if_pos rfl])
        | some w =>
          cases w <;> cases v0 <;>
            (dsimp only
             rw [mergeOverlay_not_mem k0 rest _ hnd.1, getField_setField, if_pos rfl])
      · rw [getField_cons, if_neg hkk]
        cases hga : getField acc k0 with
        | none =>
          cases v0 <;>
            (dsimp only
             rw [ih _ k hnd.2 hkref, getField_setField, if_neg hkk])
        | some w =>
          cases w <;> cases v0 <;>
            (dsimp only
             rw [ih _ k hnd.2 hkref, getField_setField, if_neg hkk])

theorem mergeShallow_getField :
    ∀ (vf bf : List (String × JSON)) (j : String), (vf.map Prod.fst).Nodup →
      getField (mergeShallow bf vf) j =
        (match getField vf j with
         | some w => some w
         | none => getField bf j) := by
  intro vf
  induction vf with
  | nil => intro bf j _; rfl
  | cons p rest ih =>
    obtain ⟨k0, w0⟩ := p
    intro bf j hnd
    simp only [List.map_cons, List.nodup_cons] at hnd
    have hstep : mergeShallow bf ((k0, w0) :: rest) = mergeShallow (setField bf k0 w0) rest := rfl
    rw [hstep, ih _ j hnd.2]
    by_cases hj : k0 = j
    · subst hj
      have hnone : getField rest k0 = none := by
        cases hgr : getField rest k0 with
        | none => rfl
        | some v =>
          exact absurd (List.mem_map.mpr ⟨(k0, v), getField_mem rest k0 v hgr, rfl⟩) hnd.1
      rw [hnone, getField_cons, if_pos rfl]
      dsimp only
      rw [getField_setField, if_pos rfl]
    · rw [getField_cons, if_neg hj]
      cases hgr : getField rest j with
      | some w => rfl
      | none =>
        dsimp only
        rw [getField_setField, if_neg hj]

/-- Claim C6: merging a `$ref`-carrying mapping with its resolved
referent lays every non-`$ref` sibling over the referent — a one-level
shallow merge with the sibling's entries winning when both values are
mappings, the sibling value overwriting otherwise — and the spec's
`title`-override example resolves exactly as stated. -/
theorem C6_theorem :
    (∀ (fields rf : List (String × JSON)) (k : String),
       (fields.map Prod.fst).Nodup → k ≠ REF →
       mergeSchemaWithRef fields (.obj rf) = .ok (.obj (mergeOverlay rf fields)) ∧
       getField (mergeOverlay rf fields) k =
         (match getField fields k, getField rf k with
          | some (.obj vf), some (.obj bf) => some (.obj (mergeShallow bf vf))
          | some v, _ => some v
          | none, r => r)) ∧
    (∀ (bf vf : List (String × JSON)) (j : String),
       (vf.map Prod.fst).Nodup →
       getField (mergeShallow bf vf) j =
         (match getField vf j with
          | some w => some w
          | none => getField bf j)) ∧
    resolveFile 10 C6fs ("root.json") =
      .ok (.obj [("title", JSON.str "override"), ("type", JSON.str "object")]) := by
  refine ⟨?_, ?_, rfl⟩
  · intro fields rf k hnd hk
    exact ⟨rfl, mergeOverlay_getField fields rf k hnd hk⟩
  · intro bf vf j hnd
    exact mergeShallow_getField vf bf j hnd

/-- Claim C6, witness: the general merge characterization applied at the
spec's example — the sibling `title` wins, the referent's `type`
survives. -/
theorem C6_witness :
    getField (mergeOverlay
      [("title", JSON.str "original"), ("type", JSON.str "object")]
      [(REF, JSON.str "x.json"), ("title", JSON.str "override")]) ("title") =
      some (JSON.str "override") ∧
    getField (mergeOverlay
      [("title", JSON.str "original"), ("type", JSON.str "object")]
      [(REF, JSON.str "x.json"), ("title", JSON.str "override")]) ("type") =
      some (JSON.str "object") := by
  constructor
  · have h := (C6_theorem.1 [(REF, JSON.str "x.json"), ("title", JSON.str "override")]
      [("title", JSON.str "original"), ("type", JSON.str "object")] ("title")
      (by decide) (by decide)).2
    rw [h]
    rfl
  · have h := (C6_theorem.1 [(REF, JSON.str "x.json"), ("title", JSON.str "override")]
      [("title", JSON.str "original"), ("type", JSON.str "object")] ("type")
      (by decide) (by decide)).2
    rw [h]
    rfl

/-- Claim C7 (amended): `parse_oneof_block` silently skips branches that
are not mappings, lack a `properties` mapping, or lack engine/version
consts that are non-empty strings (Python's `if engine and version`
also skips empty strings); a branch with non-empty string consts for
both fields constructs a `DatabaseVariantSpec`, and a character-rule
validation failure there becomes a `VariantExtractionError` wrapping
the cause; `extract_variants` errors on a non-sequence `oneOf` and on
an empty extracted variant list. -/
theorem C7_theorem :
    (∀ (item : JSON) (rest : List JSON),
       branchConsts item = none →
       parseOneofBlock (item :: rest) = parseOneofBlock rest) ∧
    (∀ (item : JSON) (rest : List JSON) (oe ov : Option String),
       branchConsts item = some (oe, ov) → (oe = none ∨ ov = none) →
       parseOneofBlock (item :: rest) = parseOneofBlock rest) ∧
    (∀ (item : JSON) (rest : List JSON) (e v : String),
       branchConsts item = some (some e, some v) → (e = "" ∨ v = "") →
       parseOneofBlock (item :: rest) = parseOneofBlock rest) ∧
    (∀ (item : JSON) (rest : List JSON) (e v : String) (spec : DatabaseVariantSpec),
       branchConsts item = some (some e, some v) → e ≠ "" → v ≠ "" →
       mkDatabaseVariantSpec e v = .ok spec →
       parseOneofBlock (item :: rest) = (parseOneofBlock rest).map (fun l => spec :: l)) ∧
    (∀ (item : JSON) (rest : List JSON) (e v : String) (err : Err),
       branchConsts item = some (some e, some v) → e ≠ "" → v ≠ "" →
       mkDatabaseVariantSpec e v = .error err →
       parseOneofBlock (item :: rest) =
         .error (.variantExtraction
           ("Invalid variant data - engine: " ++ e ++ ", version: " ++ v ++ ": " ++ errMsg err))) ∧
    (∀ (fuel : Nat) (fs : FS) (registry : String) (f : List (String × JSON)) (w : JSON),
       resolveFile fuel fs registry = .ok (.obj f) →
       getField f ONEOF = some w → (∀ l, w ≠ .arr l) →
       extractVariants fuel fs registry =
         .error (.variantExtraction ("Invalid oneOf structure in " ++ registry))) ∧
    (∀ (fuel : Nat) (fs : FS) (registry : String) (f : List (String × JSON)) (items : List JSON),
       resolveFile fuel fs registry = .ok (.obj f) →
       getField f ONEOF = some (.arr items) → parseOneofBlock items = .ok [] →
       extractVariants fuel fs registry =
         .error (.variantExtraction ("No variants found in " ++ registry))) := by
  refine ⟨?_, ?_, ?_, ?_, ?_, ?_, ?_⟩
  · intro item rest h
    simp only [parseOneofBlock, h]
  · intro item rest oe ov h hnone
    rcases hnone with h2 | h2 <;> subst h2
    · simp only [parseOneofBlock, h]
    · cases oe with
      | none => simp only [parseOneofBlock, h]
      | some e => simp only [parseOneofBlock, h]
  · intro item rest e v h hempty
    have hemp : String.isEmpty ("") = true := rfl
    rcases hempty with h2 | h2 <;> subst h2
    · simp only [parseOneofBlock, h, hemp, Bool.not_true, Bool.false_and,
        Bool.false_eq_true, if_false]
    · simp only [parseOneofBlock, h, hemp, Bool.not_true, Bool.and_false,
        Bool.false_eq_true, if_false]
  · intro item rest e v spec h he hv hmk
    have he2 : e.isEmpty = false := by
      rw [Bool.eq_false_iff]
      intro hh
      exact he ((String.isEmpty_iff e).mp hh)
    have hv2 : v.isEmpty = false := by
      rw [Bool.eq_false_iff]
      intro hh
      exact hv ((String.isEmpty_iff v).mp hh)
    simp only [parseOneofBlock, h, he2, hv2, Bool.not_false, Bool.and_self, reduceIte, hmk]
    cases hr : parseOneofBlock rest with
    | error e2 => rfl
    | ok l => rfl
  · intro item rest e v err h he hv hmk
    have he2 : e.isEmpty = false := by
      rw [Bool.eq_false_iff]
      intro hh
      exact he ((String.isEmpty_iff e).mp hh)
    have hv2 : v.isEmpty = false := by
      rw [Bool.eq_false_iff]
      intro hh
      exact hv ((String.isEmpty_iff v).mp hh)
    simp only [parseOneofBlock, h, he2, hv2, Bool.not_false, Bool.and_self, reduceIte, hmk]
  · intro fuel fs registry f w hres hone hnarr
    unfold extractVariants
    rw [hres]
    dsimp only
    rw [hone, Option.getD_some]
    cases w with
    | arr l => exact absurd rfl (hnarr l)
    | str s => rfl
    | num n => rfl
    | bool b => rfl
    | null => rfl
    | obj f2 => rfl
  · intro fuel fs registry f items hres hone hparse
    unfold extractVariants
    rw [hres]
    dsimp only
    rw [hone, Option.getD_some]
    dsimp only
    rw [hparse]

/-- Claim C7, counterexample: a branch carrying string consts for both
fields, with an empty engine string, is silently skipped — no
`DatabaseVariantSpec` is constructed and no `VariantExtractionError` is
raised, although construction would fail validation (the claim says
every branch with string consts constructs a spec, and that a
construction failure is a hard error). -/
theorem C7_counterexample :
    branchConsts C7branch = some (some (""), some ("1.0")) ∧
    parseOneofBlock [C7branch] = .ok [] ∧
    mkDatabaseVariantSpec ("") ("1.0") =
      .error (.pydanticValidation ("engine: String should have at least 1 character")) :=
  ⟨rfl, rfl, rfl⟩

/-- Claim C7, witness: a well-formed branch constructs its variant, a
branch with invalid engine characters raises the wrapped extraction
error, and an all-skippable list leaves zero variants, which
`extract_variants` turns into its own error. -/
theorem C7_witness :
    parseOneofBlock [JSON.obj [("properties", JSON.obj
      [("engine", JSON.obj [("const", JSON.str "postgresql")]),
       ("version", JSON.obj [("const", JSON.str "15.0")])])]] =
      .ok [{ engine := "postgresql", version := "15.0", engineSpecPath := none }] ∧
    parseOneofBlock [JSON.obj [("properties", JSON.obj
      [("engine", JSON.obj [("const", JSON.str "pg!")]),
       ("version", JSON.obj [("const", JSON.str "15.0")])])]] =
      .error (.variantExtraction
        ("Invalid variant data - engine: " ++ "pg!" ++ ", version: " ++ "15.0" ++ ": " ++
          errMsg (.pydanticValidation
            "engine: Engine name must contain only alphanumeric characters, hyphens, underscores, and spaces"))) ∧
    extractVariants 5 [("schemas/base/database.json", JSON.obj [("oneOf", JSON.arr [JSON.num 1])])]
      ("schemas/base/database.json") =
      .error (.variantExtraction ("No variants found in " ++ "schemas/base/database.json")) := by
  refine ⟨?_, ?_, ?_⟩
  · have h := C7_theorem.2.2.2.1 (JSON.obj [("properties", JSON.obj
      [("engine", JSON.obj [("const", JSON.str "postgresql")]),
       ("version", JSON.obj [("const", JSON.str "15.0")])])]) []
      ("postgresql") ("15.0")
      { engine := "postgresql", version := "15.0", engineSpecPath := none }
      rfl (by decide) (by decide) rfl
    rw [h]
    rfl
  · have h := C7_theorem.2.2.2.2.1 (JSON.obj [("properties", JSON.obj
      [("engine", JSON.obj [("const", JSON.str "pg!")]),
       ("version", JSON.obj [("const", JSON.str "15.0")])])]) []
      ("pg!") ("15.0")
      (.pydanticValidation
        "engine: Engine name must contain only alphanumeric characters, hyphens, underscores, and spaces")
      rfl (by decide) (by decide) rfl
    rw [h]
  · exact C7_theorem.2.2.2.2.2.2 5
      [("schemas/base/database.json", JSON.obj [("oneOf", JSON.arr [JSON.num 1])])]
      ("schemas/base/database.json")
      [("oneOf", JSON.arr [JSON.num 1])] [JSON.num 1] rfl rfl rfl
